import Mathlib

/-!
# Sfx: transient visual effects of the Pioneer frame tree

A shallow embedding of `src/Sfx.cpp` and the properties of its effect pool,
ageing step, tree traversal and persistence format.

Conventions of the embedding

* `float` and `double` quantities are rationals: arithmetic is exact. Where a
  property depends on rounding, the binary32 and binary64 arithmetic of the
  source is given by `roundFloat`, and the code concerned has a second embedding
  whose name ends in `_float`.
* A `Sfx *` into a frame's pool is the index of the slot, a `Fin MAX_SFX_PER_FRAME`.
* In-place mutation of a frame is a function from the old frame to the new one.
* Storage obtained from `new Sfx[...]` is not cleared by the constructor, which
  assigns `m_type` only; the previous contents of that storage are an explicit
  argument `raw` of every function that allocates.
-/

/-! ## Data model -/

/-- The constant `MAX_SFX_PER_FRAME` of Sfx.cpp. -/
def MAX_SFX_PER_FRAME : Nat := 1024

/-- Modelled from the spec: the enumeration `Sfx::TYPE` is declared in Sfx.h; its
four enumerators are the ones the switch statements of Sfx.cpp dispatch on. -/
inductive TYPE where
  | TYPE_NONE
  | TYPE_EXPLOSION
  | TYPE_DAMAGE
  | TYPE_SMOKE
deriving DecidableEq, Repr

open TYPE

/-- Modelled from the spec: the underlying integer of an enumerator (declared in
Sfx.h); the enumerators are numbered in the order the spec lists them. Only the
fact that distinct enumerators have distinct integers is used. -/
def TYPE.toInt32 : TYPE → Int
  | TYPE_NONE => 0
  | TYPE_EXPLOSION => 1
  | TYPE_DAMAGE => 2
  | TYPE_SMOKE => 3

/-- The conversion `static_cast<Sfx::TYPE>(n)`: an integer that is the value of an
enumerator gives that enumerator; any other integer gives no `TYPE` value. -/
def TYPE.ofInt32 (n : Int) : Option TYPE :=
  if n = 0 then some TYPE_NONE
  else if n = 1 then some TYPE_EXPLOSION
  else if n = 2 then some TYPE_DAMAGE
  else if n = 3 then some TYPE_SMOKE
  else none

/-- Modelled from the spec: `vector3d` (declared in vector3.h) is a 3D vector with
components x, y, z. -/
structure vector3d where
  x : ℚ
  y : ℚ
  z : ℚ
deriving DecidableEq, Repr

namespace vector3d

/-- Componentwise sum, `a + b`. -/
def add (a b : vector3d) : vector3d := ⟨a.x + b.x, a.y + b.y, a.z + b.z⟩

/-- Product with a scalar, `v * k` and `k * v`. -/
def scale (k : ℚ) (v : vector3d) : vector3d := ⟨k * v.x, k * v.y, k * v.z⟩

instance : Add vector3d := ⟨add⟩

end vector3d

/-- The data members of one effect record (class `Sfx`). -/
structure Sfx where
  m_pos : vector3d
  m_vel : vector3d
  m_age : ℚ
  m_speed : ℚ
  m_type : TYPE
deriving DecidableEq, Repr

/-- The array `Frame::m_sfx` once allocated: `MAX_SFX_PER_FRAME` slots. -/
abbrev Pool := Fin MAX_SFX_PER_FRAME → Sfx

/-- Modelled from the spec: class `Frame` is declared in Frame.h; Sfx.cpp uses its
member `m_sfx` (null, or the pool) and `GetChildren()`. -/
inductive Frame where
  | mk (m_sfx : Option Pool) (m_children : List Frame)

namespace Frame

/-- The member `m_sfx`: `none` is the null pointer. -/
def m_sfx : Frame → Option Pool
  | mk p _ => p

/-- The child frames, `GetChildren()`. -/
def GetChildren : Frame → List Frame
  | mk _ kids => kids

/-- The assignment `f->m_sfx = p`. -/
def setSfx (f : Frame) (p : Pool) : Frame := mk (some p) f.GetChildren

end Frame

/-- Modelled from the spec: class `Body` is declared in Body.h; Sfx.cpp reads
`GetPosition()` and `GetVelocity()`. The frame `GetFrame()` of the body is passed
next to the body. -/
structure Body where
  GetPosition : vector3d
  GetVelocity : vector3d

/-! ## Binary stream primitives -/

/-- Modelled from the spec: `Serializer::Writer` and `Serializer::Reader` are
declared in Serializer.h; the stream is an ordered sequence of 3D vectors, 32-bit
floats and 32-bit signed integers, the field order being the wire format. -/
inductive Item where
  | Vector3d (v : vector3d)
  | Float (x : ℚ)
  | Int32 (n : Int)
deriving DecidableEq, Repr

namespace Serializer

/-- A writer is the sequence written so far. -/
abbrev Writer := List Item

/-- A reader is the sequence still to be read. -/
abbrev Reader := List Item

namespace Writer

/-- The call `wr.Vector3d(v)`. -/
def Vector3d (wr : Writer) (v : vector3d) : Writer := wr ++ [Item.Vector3d v]

/-- The call `wr.Float(x)`. -/
def Float (wr : Writer) (x : ℚ) : Writer := wr ++ [Item.Float x]

/-- The call `wr.Int32(n)`. -/
def Int32 (wr : Writer) (n : Int) : Writer := wr ++ [Item.Int32 n]

end Writer

namespace Reader

/-- The call `rd.Vector3d()`: the next item, when it is a vector. -/
def Vector3d : Reader → Option (vector3d × Reader)
  | Item.Vector3d v :: rd => some (v, rd)
  | _ => none

/-- The call `rd.Float()`. -/
def Float : Reader → Option (ℚ × Reader)
  | Item.Float x :: rd => some (x, rd)
  | _ => none

/-- The call `rd.Int32()`. -/
def Int32 : Reader → Option (Int × Reader)
  | Item.Int32 n :: rd => some (n, rd)
  | _ => none

end Reader

end Serializer

open Serializer

/-! ## Sfx.cpp -/

namespace Sfx

/-- The constructor `Sfx::Sfx()`: assigns `m_type` and nothing else, so the other
members keep what the storage `raw` held. -/
def construct (raw : Sfx) : Sfx := { raw with m_type := TYPE_NONE }

/-- The expression `new Sfx[MAX_SFX_PER_FRAME]` on storage `raw`: the constructor
runs on every element. -/
def newArray (raw : Pool) : Pool := fun i => construct (raw i)

/-- The function `Sfx::Save`. -/
def Save (s : Sfx) (wr : Writer) : Writer :=
  let wr := wr.Vector3d s.m_pos
  let wr := wr.Vector3d s.m_vel
  let wr := wr.Float s.m_age
  wr.Int32 s.m_type.toInt32

/-- The function `Sfx::Load`: the four reads in order; `m_speed` is not assigned. -/
def Load (s : Sfx) (rd : Reader) : Option (Sfx × Reader) :=
  match rd.Vector3d with
  | none => none
  | some (pos, rd) =>
    match rd.Vector3d with
    | none => none
    | some (vel, rd) =>
      match rd.Float with
      | none => none
      | some (age, rd) =>
        match rd.Int32 with
        | none => none
        | some (n, rd) =>
          match TYPE.ofInt32 n with
          | none => none
          | some t => some ({ s with m_pos := pos, m_vel := vel, m_age := age, m_type := t }, rd)

/-- The first loop of `Sfx::Serialize`: counts the slots whose type is not
`TYPE_NONE`. -/
def countActive (sfx : Pool) : Nat :=
  (List.finRange MAX_SFX_PER_FRAME).foldl
    (fun numActive i => if (sfx i).m_type ≠ TYPE_NONE then numActive + 1 else numActive) 0

/-- The second loop of `Sfx::Serialize`: saves the active slots in index order. -/
def saveActive (sfx : Pool) (wr : Writer) : Writer :=
  (List.finRange MAX_SFX_PER_FRAME).foldl
    (fun wr i => if (sfx i).m_type ≠ TYPE_NONE then (sfx i).Save wr else wr) wr

/-- The function `Sfx::Serialize`. -/
def Serialize (wr : Writer) (f : Frame) : Writer :=
  let numActive : Nat :=
    match f.m_sfx with
    | some sfx => countActive sfx
    | none => 0
  let wr := wr.Int32 numActive
  if numActive ≠ 0 then
    match f.m_sfx with
    | some sfx => saveActive sfx wr
    | none => wr
  else wr

/-- The loop of `Sfx::Unserialize`, `for (i; i < numActive; i++) f->m_sfx[i].Load(rd)`,
with `n` iterations left; an index past the end of the array gives no result. -/
def loadLoop : (n : Nat) → (i : Nat) → Pool → Reader → Option (Pool × Reader)
  | 0, _, sfx, rd => some (sfx, rd)
  | n + 1, i, sfx, rd =>
    if h : i < MAX_SFX_PER_FRAME then
      match (sfx ⟨i, h⟩).Load rd with
      | none => none
      | some (s, rd) => loadLoop n (i + 1) (Function.update sfx ⟨i, h⟩ s) rd
    else none

/-- The function `Sfx::Unserialize`; `raw` is the storage the new array is built on. -/
def Unserialize (raw : Pool) (rd : Reader) (f : Frame) : Option (Frame × Reader) :=
  match rd.Int32 with
  | none => none
  | some (numActive, rd) =>
    if numActive ≠ 0 then
      match loadLoop numActive.toNat 0 (newArray raw) rd with
      | none => none
      | some (sfx, rd) => some (f.setSfx sfx, rd)
    else some (f, rd)

/-- The function `Sfx::SetPosition`. -/
def SetPosition (s : Sfx) (p : vector3d) : Sfx := { s with m_pos := p }

/-- The function `Sfx::TimeStepUpdate`, in exact arithmetic; `TimeStepUpdate_float` is
the same function in the arithmetic of the source. -/
def TimeStepUpdate (s : Sfx) (timeStep : ℚ) : Sfx :=
  let s := { s with m_age := s.m_age + timeStep }
  let s := { s with m_pos := s.m_pos + vector3d.scale timeStep s.m_vel }
  match s.m_type with
  | TYPE_EXPLOSION => if s.m_age > 0.5 then { s with m_type := TYPE_NONE } else s
  | TYPE_DAMAGE => if s.m_age > 2.0 then { s with m_type := TYPE_NONE } else s
  | TYPE_SMOKE => if s.m_age > 8.0 then { s with m_type := TYPE_NONE } else s
  | TYPE_NONE => s

/-- The function `Sfx::AllocSfxInFrame`: the frame with its pool in place, and the index of the
slot returned (`none` is the null pointer). -/
def AllocSfxInFrame (raw : Pool) (f : Frame) : Frame × Option (Fin MAX_SFX_PER_FRAME) :=
  let f := match f.m_sfx with
    | none => f.setSfx (newArray raw)
    | some _ => f
  match f.m_sfx with
  | some sfx => (f, (List.finRange MAX_SFX_PER_FRAME).find? fun i => (sfx i).m_type = TYPE_NONE)
  | none => (f, none)

/-- Assignment through a `Sfx *` into the pool of `f`: slot `i` becomes `g` of itself. -/
def modifySlot (f : Frame) (i : Fin MAX_SFX_PER_FRAME) (g : Sfx → Sfx) : Frame :=
  match f.m_sfx with
  | some sfx => f.setSfx (Function.update sfx i (g (sfx i)))
  | none => f

/-- The function `Sfx::Add`; `f` is `b->GetFrame()` and `r1 r2 r3` are the three values of
`Pi::rng.Double()`, for the x, y and z component. -/
def Add (raw : Pool) (f : Frame) (b : Body) (t : TYPE) (r1 r2 r3 : ℚ) : Frame :=
  match AllocSfxInFrame raw f with
  | (f, none) => f
  | (f, some sfx) =>
    modifySlot f sfx fun s =>
      let s := { s with m_type := t }
      let s := { s with m_age := 0 }
      let s := s.SetPosition b.GetPosition
      { s with m_vel := b.GetVelocity + vector3d.scale 200.0 ⟨r1 - 0.5, r2 - 0.5, r3 - 0.5⟩ }

/-- The function `Sfx::AddThrustSmoke`; `f` is `b->GetFrame()`. -/
def AddThrustSmoke (raw : Pool) (f : Frame) (b : Body) (t : TYPE) (speed : ℚ)
    (adjustpos : vector3d) : Frame :=
  match AllocSfxInFrame raw f with
  | (f, none) => f
  | (f, some sfx) =>
    modifySlot f sfx fun s =>
      let s := { s with m_type := t }
      let s := { s with m_age := 0 }
      let s := { s with m_speed := speed }
      let npos := b.GetPosition
      let s := s.SetPosition (npos + adjustpos)
      { s with m_vel := ⟨0, 0, 0⟩ }

/-- The loop of `Sfx::TimeStepAll` over the slots of one pool. -/
def timeStepPool (timeStep : ℚ) (sfx : Pool) : Pool :=
  (List.finRange MAX_SFX_PER_FRAME).foldl
    (fun sfx i =>
      if (sfx i).m_type ≠ TYPE_NONE then Function.update sfx i ((sfx i).TimeStepUpdate timeStep)
      else sfx) sfx

mutual
/-- The function `Sfx::TimeStepAll`. -/
def TimeStepAll (timeStep : ℚ) : Frame → Frame
  | Frame.mk m_sfx kids =>
    Frame.mk (m_sfx.map (timeStepPool timeStep)) (TimeStepAllKids timeStep kids)
/-- The loop `for (Frame* kid : f->GetChildren()) TimeStepAll(timeStep, kid)`. -/
def TimeStepAllKids (timeStep : ℚ) : List Frame → List Frame
  | [] => []
  | kid :: kids => TimeStepAll timeStep kid :: TimeStepAllKids timeStep kids
end

end Sfx

/-! ## Rendering -/

/-- Modelled from the spec: `Color` is declared in Color.h. The components are the
values given to the constructor, before they are narrowed to bytes. -/
structure Color where
  r : ℚ
  g : ℚ
  b : ℚ
  a : ℚ
deriving DecidableEq, Repr

/-- Modelled from the spec: the compound assignment `c *= k` of Color.h, taken as the
product of every component with `k`. -/
def Color.mul (c : Color) (k : ℚ) : Color := ⟨c.r * k, c.g * k, c.b * k, c.a * k⟩

/-- Modelled from the spec: `matrix4x4d` is declared in matrix4x4.h; the
frame-to-camera transform is represented by its action `ftransform * p` on points. -/
abbrev matrix4x4d := vector3d → vector3d

/-- The matrices built in `Sfx::Render` for `SetTransform`. -/
inductive DrawTransform where
  | Translation (v : vector3d)
  | TranslationScale (v : vector3d) (scale : ℚ)
deriving DecidableEq, Repr

/-- The two render states of `Sfx::Init`. -/
inductive BlendState where
  | alphaState
  | additiveAlphaState
deriving DecidableEq, Repr

/-- Modelled from the spec: the calls Sfx.cpp makes on the rendering backend and on
the frame-transform resolver, in the order they are made. -/
inductive RenderCall where
  | GetFrameTransform (f : Frame)
  | SetTransform (m : DrawTransform)
  | Sphere3D_Draw (diffuse : Color)
  | DrawPointSprites (count : Nat) (pos : vector3d) (state : BlendState) (diffuse : Color)
      (size : ℚ)

/-- What `Sfx::Render` reads and writes besides the effect itself: the calls made so
far, the diffuse colours of the three shared materials, and the generator
`Pi::rng`, given by the sequence of its values and the number already drawn. -/
structure RenderEnv where
  calls : List RenderCall
  explosionDiffuse : Color
  damageParticle : Color
  smokeParticle : Color
  rng : Nat → ℚ
  drawn : Nat

namespace RenderEnv

/-- A call is made on the backend. -/
def call (env : RenderEnv) (c : RenderCall) : RenderEnv := { env with calls := env.calls ++ [c] }

/-- The call `Pi::rng.Double()`. -/
def Double (env : RenderEnv) : ℚ × RenderEnv := (env.rng env.drawn, { env with drawn := env.drawn + 1 })

end RenderEnv

/-- Modelled from the spec: `Clamp(x, lo, hi)` of utils.h clamps `x` into `[lo, hi]`. -/
def Clamp (x lo hi : ℚ) : ℚ := if x > hi then hi else if x < lo then lo else x

namespace Sfx

/-- The function `Sfx::Render`, in exact arithmetic: the effect after the call, and the
environment after it. -/
def Render (s : Sfx) (env : RenderEnv) (ftransform : matrix4x4d) : Sfx × RenderEnv :=
  let fpos := ftransform s.m_pos
  let pos := fpos
  match s.m_type with
  | TYPE_NONE => (s, env)
  | TYPE_EXPLOSION =>
    let env := { env with explosionDiffuse := ⟨255, 255, 128, 255⟩ }
    let env := env.call (RenderCall.SetTransform (DrawTransform.TranslationScale fpos (500 * s.m_age)))
    let env := env.call (RenderCall.Sphere3D_Draw env.explosionDiffuse)
    let env := { env with explosionDiffuse := ⟨255, 128, 0, 168⟩ }
    let env := env.call (RenderCall.SetTransform (DrawTransform.TranslationScale fpos (750 * s.m_age)))
    let env := env.call (RenderCall.Sphere3D_Draw env.explosionDiffuse)
    let env := { env with explosionDiffuse := ⟨255, 0, 0, 84⟩ }
    let env := env.call (RenderCall.SetTransform (DrawTransform.TranslationScale fpos (1000 * s.m_age)))
    let env := env.call (RenderCall.Sphere3D_Draw env.explosionDiffuse)
    (s, env)
  | TYPE_DAMAGE =>
    let env := env.call (RenderCall.SetTransform (DrawTransform.Translation fpos))
    let env := { env with damageParticle := ⟨255, 255, 0, (1.0 - (s.m_age / 2.0)) * 255⟩ }
    let env := env.call
      (RenderCall.DrawPointSprites 1 pos BlendState.additiveAlphaState env.damageParticle 20)
    (s, env)
  | TYPE_SMOKE =>
    let (d, env) := env.Double
    let var := d * 0.05
    let env :=
      if s.m_age < 0.5 then
        { env with smokeParticle := ⟨(0.75 - var) * 255, (0.75 - var) * 255, (0.75 - var) * 255,
            (s.m_age * 0.5 - (s.m_age / 2.0)) * 255⟩ }
      else
        { env with smokeParticle := ⟨(0.75 - var) * 255, (0.75 - var) * 255, (0.75 - var) * 255,
            Clamp (0.5 * 0.5 - (s.m_age / 16.0)) 0.0 1.0 * 255⟩ }
    let env := env.call (RenderCall.SetTransform (DrawTransform.Translation fpos))
    let env := { env with damageParticle := env.damageParticle.mul 0.05 }
    let env := env.call
      (RenderCall.DrawPointSprites 1 pos BlendState.alphaState env.smokeParticle
        (s.m_speed * s.m_age))
    (s, env)

/-- The body of the loop of `Sfx::RenderAll` over the slots of one pool, for slot `i`. -/
def renderSlot (ftran : matrix4x4d) (st : Pool × RenderEnv) (i : Fin MAX_SFX_PER_FRAME) :
    Pool × RenderEnv :=
  if (st.1 i).m_type ≠ TYPE_NONE then
    let (s, env) := (st.1 i).Render st.2 ftran
    (Function.update st.1 i s, env)
  else st

/-- The loop of `Sfx::RenderAll` over the slots of one pool. -/
def renderPool (ftran : matrix4x4d) (sfx : Pool) (env : RenderEnv) : Pool × RenderEnv :=
  (List.finRange MAX_SFX_PER_FRAME).foldl (renderSlot ftran) (sfx, env)

mutual
/-- The function `Sfx::RenderAll`; `GetFrameTransform f camFrame` is the transform that
`Frame::GetFrameTransform(f, camFrame, ftran)` stores in `ftran`. -/
def RenderAll (GetFrameTransform : Frame → Frame → matrix4x4d) (camFrame : Frame) :
    Frame → RenderEnv → Frame × RenderEnv
  | Frame.mk m_sfx kids, env =>
    match m_sfx with
    | some sfx =>
      let env := env.call (RenderCall.GetFrameTransform (Frame.mk (some sfx) kids))
      let ftran := GetFrameTransform (Frame.mk (some sfx) kids) camFrame
      let slots := renderPool ftran sfx env
      let rest := RenderAllKids GetFrameTransform camFrame kids slots.2
      (Frame.mk (some slots.1) rest.1, rest.2)
    | none =>
      let rest := RenderAllKids GetFrameTransform camFrame kids env
      (Frame.mk none rest.1, rest.2)
/-- The loop `for (Frame* kid : f->GetChildren()) RenderAll(renderer, kid, camFrame)`. -/
def RenderAllKids (GetFrameTransform : Frame → Frame → matrix4x4d) (camFrame : Frame) :
    List Frame → RenderEnv → List Frame × RenderEnv
  | [], env => ([], env)
  | kid :: kids, env =>
    let first := RenderAll GetFrameTransform camFrame kid env
    let rest := RenderAllKids GetFrameTransform camFrame kids first.2
    (first.1 :: rest.1, rest.2)
end

end Sfx

/-! ## Vocabulary of the properties -/

/-- The expiry threshold the specification gives for each type (0.5 / 2.0 / 8.0);
`TYPE_NONE` has none and gets 0 here. -/
def specThreshold : TYPE → ℚ
  | TYPE_EXPLOSION => 0.5
  | TYPE_DAMAGE => 2.0
  | TYPE_SMOKE => 8.0
  | TYPE_NONE => 0

/-- A sequence of ticks applied to one effect: `TimeStepUpdate` once per time step. -/
def runTicks (s : Sfx) (ts : List ℚ) : Sfx := ts.foldl Sfx.TimeStepUpdate s

/-- An Explosion effect of age 0 at the origin, at rest. -/
def explosionAtRest : Sfx :=
  { m_pos := ⟨0, 0, 0⟩, m_vel := ⟨0, 0, 0⟩, m_age := 0, m_speed := 0, m_type := TYPE_EXPLOSION }

/-- The slots of a pool in index order. -/
def slots (sfx : Pool) : List Sfx := List.ofFn sfx

/-- The active slots of a pool, in increasing index order. -/
def activeSlots (sfx : Pool) : List Sfx := (slots sfx).filter fun s => s.m_type ≠ TYPE_NONE

/-- The active effects of a frame: none when the frame has no pool. -/
def frameActive (f : Frame) : List Sfx :=
  match f.m_sfx with
  | some sfx => activeSlots sfx
  | none => []

/-- One record of the persisted format: position, velocity, age, type as integer. -/
def record (pos vel : vector3d) (age : ℚ) (t : TYPE) : List Item :=
  [Item.Vector3d pos, Item.Vector3d vel, Item.Float age, Item.Int32 t.toInt32]

/-- The record of an effect. -/
def recordOf (s : Sfx) : List Item := record s.m_pos s.m_vel s.m_age s.m_type

/-- The effect `s` after the fields of the record of `r` were loaded into it: position,
velocity, age and type are those of `r`, the speed stays that of `s`. -/
def withRecord (s r : Sfx) : Sfx :=
  { s with m_pos := r.m_pos, m_vel := r.m_vel, m_age := r.m_age, m_type := r.m_type }

/-- The pool `sfx` after the records of `rs` were loaded into the slots `i`, `i + 1`, ... -/
def loadedInto (sfx : Pool) (i : Nat) (rs : List Sfx) : Pool := fun j =>
  if i ≤ j.val then
    match rs[j.val - i]? with
    | some r => withRecord (sfx j) r
    | none => sfx j
  else sfx j

/-- Storage whose every slot holds speed 1 (and zeros elsewhere). -/
def rawSpeedOne : Pool := fun _ =>
  { m_pos := ⟨0, 0, 0⟩, m_vel := ⟨0, 0, 0⟩, m_age := 0, m_speed := 1, m_type := TYPE_NONE }

/-- A frame without a pool and without children. -/
def emptyFrame : Frame := Frame.mk none []

/-- A pool whose 1024 slots all hold a Damage effect of age 0. -/
def fullDamagePool : Pool := fun _ =>
  { m_pos := ⟨0, 0, 0⟩, m_vel := ⟨0, 0, 0⟩, m_age := 0, m_speed := 0, m_type := TYPE_DAMAGE }

/-- A body at the origin, at rest. -/
def bodyAtRest : Body := { GetPosition := ⟨0, 0, 0⟩, GetVelocity := ⟨0, 0, 0⟩ }

/-- The pool a frame has once `AllocSfxInFrame` has run: its own, or a new array. -/
def ensuredPool (raw : Pool) (f : Frame) : Pool :=
  match f.m_sfx with
  | some sfx => sfx
  | none => Sfx.newArray raw

/-- The frame reached from `f` by following child indices: `[]` is `f` itself,
`k :: path` continues from the `k`-th child. Every frame of the tree under `f` is
reached by exactly one path. -/
def Frame.descend : Frame → List Nat → Option Frame
  | f, [] => some f
  | f, k :: path =>
    match f.GetChildren[k]? with
    | none => none
    | some kid => kid.descend path

/-- A frame without children whose pool is full of Damage effects of age 0. -/
def damageLeaf : Frame := Frame.mk (some fullDamagePool) []

/-- A frame with two `damageLeaf` children; it has no pool itself. -/
def twoLeaves : Frame := Frame.mk none [damageLeaf, damageLeaf]

/-- The tree of scenario D: a root, 2 children, 2 grandchildren each (7 frames). -/
def sevenFrames : Frame := Frame.mk (some fullDamagePool) [twoLeaves, twoLeaves]

/-- The frame of scenario C: two Smoke trails and a Damage effect created, in this
order, in a frame that had no pool. -/
def smokeSmokeDamage : Frame :=
  Sfx.Add rawSpeedOne
    (Sfx.AddThrustSmoke rawSpeedOne
      (Sfx.AddThrustSmoke rawSpeedOne emptyFrame bodyAtRest TYPE_SMOKE 5 ⟨1, 0, 0⟩)
      bodyAtRest TYPE_SMOKE 6 ⟨2, 0, 0⟩)
    bodyAtRest TYPE_DAMAGE (1 / 2) (1 / 2) (1 / 2)

/-- The first effect of scenario C. -/
def firstSmoke : Sfx :=
  { m_pos := ⟨1, 0, 0⟩, m_vel := ⟨0, 0, 0⟩, m_age := 0, m_speed := 5, m_type := TYPE_SMOKE }

/-- The second effect of scenario C. -/
def secondSmoke : Sfx :=
  { m_pos := ⟨2, 0, 0⟩, m_vel := ⟨0, 0, 0⟩, m_age := 0, m_speed := 6, m_type := TYPE_SMOKE }

/-- The third effect of scenario C; its speed is what the storage held. -/
def thirdDamage : Sfx :=
  { m_pos := ⟨0, 0, 0⟩, m_vel := ⟨0, 0, 0⟩, m_age := 0, m_speed := 1, m_type := TYPE_DAMAGE }

/-- The pool of scenario C after the first creation. -/
def poolAfterFirst : Pool :=
  Function.update (Sfx.newArray rawSpeedOne) ⟨0, by decide⟩ firstSmoke

/-- The pool of scenario C after the second creation. -/
def poolAfterSecond : Pool := Function.update poolAfterFirst ⟨1, by decide⟩ secondSmoke

/-- The pool of scenario C after the third creation. -/
def poolAfterThird : Pool := Function.update poolAfterSecond ⟨2, by decide⟩ thirdDamage

/-- What the loop of `Sfx::TimeStepAll` does to one slot: `TimeStepUpdate` when the
slot is active, nothing when its type is `TYPE_NONE`. -/
def tickSlot (s : Sfx) (timeStep : ℚ) : Sfx :=
  if s.m_type ≠ TYPE_NONE then s.TimeStepUpdate timeStep else s

/-- A record of type `TYPE_NONE` with age 0 at the origin that still holds the
velocity (1, 0, 0). -/
def driftingNone : Sfx :=
  { m_pos := ⟨0, 0, 0⟩, m_vel := ⟨1, 0, 0⟩, m_age := 0, m_speed := 0, m_type := TYPE_NONE }

/-- An environment in which nothing was called yet; the materials are black and the
generator returns 0. -/
def blankEnv : RenderEnv :=
  { calls := [], explosionDiffuse := ⟨0, 0, 0, 0⟩, damageParticle := ⟨0, 0, 0, 0⟩,
    smokeParticle := ⟨0, 0, 0, 0⟩, rng := fun _ => 0, drawn := 0 }

/-- A Smoke effect of the given age at the origin, at rest, with speed 1. -/
def smokeAged (age : ℚ) : Sfx :=
  { m_pos := ⟨0, 0, 0⟩, m_vel := ⟨0, 0, 0⟩, m_age := age, m_speed := 1, m_type := TYPE_SMOKE }

/-- A Damage effect of the given age at the origin, at rest. -/
def damageAged (age : ℚ) : Sfx :=
  { m_pos := ⟨0, 0, 0⟩, m_vel := ⟨0, 0, 0⟩, m_age := age, m_speed := 0, m_type := TYPE_DAMAGE }

/-- The alpha that `Sfx::Render` computes for a Smoke effect: the alpha of the diffuse
colour of `smokeParticle` after the call, the colour its sprite is drawn with. -/
def smokeAlpha (s : Sfx) (env : RenderEnv) (ftransform : matrix4x4d) : ℚ :=
  (s.Render env ftransform).2.smokeParticle.a

/-- The alpha that `Sfx::Render` computes for a Damage effect: the alpha of the diffuse
colour of `damageParticle` after the call, the colour its sprite is drawn with. -/
def damageAlpha (s : Sfx) (env : RenderEnv) (ftransform : matrix4x4d) : ℚ :=
  (s.Render env ftransform).2.damageParticle.a

namespace Sfx

mutual
/-- The calls of `Sfx::TimeStepAll` that one call on a frame amounts to, each given
by the frame it is made on, in the order they are made: the call itself, then
the calls made by the loop over `f->GetChildren()`. -/
def TimeStepAllCalls : Frame → List Frame
  | Frame.mk m_sfx kids => Frame.mk m_sfx kids :: TimeStepAllKidsCalls kids
/-- The calls made by the loop `for (Frame* kid : f->GetChildren())` of
`Sfx::TimeStepAll`. -/
def TimeStepAllKidsCalls : List Frame → List Frame
  | [] => []
  | kid :: kids => TimeStepAllCalls kid ++ TimeStepAllKidsCalls kids
end

end Sfx

/-- What `RenderAll` is to do for one frame: nothing when the frame has no pool;
otherwise one resolution of the frame-to-camera transform, then one `Render`
with that transform for each active slot, in index order. -/
def renderFrameOnce (G : Frame → Frame → matrix4x4d) (camFrame : Frame) (env : RenderEnv)
    (f : Frame) : RenderEnv :=
  match f.m_sfx with
  | none => env
  | some sfx =>
    (activeSlots sfx).foldl (fun env s => (s.Render env (G f camFrame)).2)
      (env.call (RenderCall.GetFrameTransform f))

/-- The frames whose transform was resolved, in the order of the calls. -/
def resolvedFrames (calls : List RenderCall) : List Frame :=
  calls.filterMap fun c =>
    match c with
    | RenderCall.GetFrameTransform f => some f
    | _ => none

/-- The tree `f` after the frame found at `path` was replaced by `g` of it; the tree
is returned as it is when the path leads to no frame. -/
def Frame.modifyAt : List Nat → (Frame → Frame) → Frame → Frame
  | [], g, f => g f
  | k :: path, g, f =>
    match f.GetChildren[k]? with
    | none => f
    | some kid => Frame.mk f.m_sfx (f.GetChildren.set k (Frame.modifyAt path g kid))

/-- One call made on the effects of a frame tree: a creation on behalf of a body
whose frame is the one found at `path`, or one tick of the whole tree. -/
inductive SfxOp where
  | Add (path : List Nat) (raw : Pool) (b : Body) (t : TYPE) (r1 r2 r3 : ℚ)
  | AddThrustSmoke (path : List Nat) (raw : Pool) (b : Body) (t : TYPE) (speed : ℚ)
      (adjustpos : vector3d)
  | TimeStepAll (timeStep : ℚ)

/-- The tree after the call. -/
def SfxOp.run : SfxOp → Frame → Frame
  | SfxOp.Add path raw b t r1 r2 r3, root =>
    root.modifyAt path fun f => Sfx.Add raw f b t r1 r2 r3
  | SfxOp.AddThrustSmoke path raw b t speed adjustpos, root =>
    root.modifyAt path fun f => Sfx.AddThrustSmoke raw f b t speed adjustpos
  | SfxOp.TimeStepAll timeStep, root => Sfx.TimeStepAll timeStep root

/-- The time step of a tick is positive. -/
def SfxOp.positiveStep : SfxOp → Prop
  | SfxOp.TimeStepAll timeStep => 0 < timeStep
  | _ => True

/-- The tree after a sequence of calls. -/
def runOps (root : Frame) (ops : List SfxOp) : Frame := ops.foldl (fun r op => op.run r) root

/-- No frame of the tree has an active slot: every pool is absent or empty. -/
def emptyPools (root : Frame) : Prop :=
  ∀ (path : List Nat) (f : Frame) (sfx : Pool) (i : Fin MAX_SFX_PER_FRAME),
    root.descend path = some f → f.m_sfx = some sfx → (sfx i).m_type = TYPE_NONE

/-- An active effect has an age between 0 and the threshold of its type. -/
def withinLife (s : Sfx) : Prop :=
  s.m_type ≠ TYPE_NONE → 0 ≤ s.m_age ∧ s.m_age ≤ specThreshold s.m_type

/-- Every slot of every pool of the tree is `withinLife`. -/
def allWithinLife (root : Frame) : Prop :=
  ∀ (path : List Nat) (f : Frame) (sfx : Pool) (i : Fin MAX_SFX_PER_FRAME),
    root.descend path = some f → f.m_sfx = some sfx → withinLife (sfx i)

/-! ## The floating-point arithmetic of the source -/

/-- The integer nearest to `q`, the even one of the two when `q` is half way. -/
def roundHalfEven (q : ℚ) : Int :=
  if q - ⌊q⌋ < 1 / 2 then ⌊q⌋
  else if q - ⌊q⌋ > 1 / 2 then ⌊q⌋ + 1
  else if ⌊q⌋ % 2 = 0 then ⌊q⌋ else ⌊q⌋ + 1

/-- IEEE 754 rounding to nearest, ties to even, into the binary format with `p`
significant bits and least normal exponent `emin`: `x` is rounded to a multiple
of the unit in the last place of its binade (of the least binade for a
subnormal `x`). Results are finite: magnitudes that round to infinity are not
represented. -/
def roundFloat (p : Nat) (emin : Int) (x : ℚ) : ℚ :=
  if x = 0 then 0
  else
    let e := max (Int.log 2 |x|) emin
    roundHalfEven (x / 2 ^ (e - (p - 1))) * 2 ^ (e - (p - 1))

/-- The value of type `float` nearest to `x` (binary32). -/
def binary32 (x : ℚ) : ℚ := roundFloat 24 (-126) x

namespace Sfx

/-- The alpha `(1.0f-(m_age/2.0f))*255` of the Damage branch of `Sfx::Render` in the
arithmetic of the source: the quotient, the difference and the product are of
type `float` and round to binary32. -/
def damageAlpha_float (m_age : ℚ) : ℚ := binary32 (binary32 (1 - binary32 (m_age / 2)) * 255)

end Sfx

/-! # Properties -/

/-! ## Ageing and expiry -/

theorem TimeStepUpdate_age (s : Sfx) (dt : ℚ) :
    (s.TimeStepUpdate dt).m_age = s.m_age + dt := by
  cases s with
  | mk p v a sp t => cases t <;> simp only [Sfx.TimeStepUpdate] <;> split_ifs <;> rfl

theorem TimeStepUpdate_vel (s : Sfx) (dt : ℚ) :
    (s.TimeStepUpdate dt).m_vel = s.m_vel := by
  cases s with
  | mk p v a sp t => cases t <;> simp only [Sfx.TimeStepUpdate] <;> split_ifs <;> rfl

theorem TimeStepUpdate_speed (s : Sfx) (dt : ℚ) :
    (s.TimeStepUpdate dt).m_speed = s.m_speed := by
  cases s with
  | mk p v a sp t => cases t <;> simp only [Sfx.TimeStepUpdate] <;> split_ifs <;> rfl

theorem TimeStepUpdate_pos (s : Sfx) (dt : ℚ) :
    (s.TimeStepUpdate dt).m_pos = s.m_pos + vector3d.scale dt s.m_vel := by
  cases s with
  | mk p v a sp t => cases t <;> simp only [Sfx.TimeStepUpdate] <;> split_ifs <;> rfl

theorem TimeStepUpdate_type (s : Sfx) (dt : ℚ) :
    (s.TimeStepUpdate dt).m_type =
      if s.m_type = TYPE_NONE then TYPE_NONE
      else if s.m_age + dt > specThreshold s.m_type then TYPE_NONE else s.m_type := by
  cases s with
  | mk p v a sp t =>
    cases t <;> simp only [Sfx.TimeStepUpdate, specThreshold] <;> split_ifs <;> simp_all

theorem runTicks_snoc (s : Sfx) (ts : List ℚ) (dt : ℚ) :
    runTicks s (ts ++ [dt]) = (runTicks s ts).TimeStepUpdate dt := by
  simp [runTicks, List.foldl_append]

theorem runTicks_age (s : Sfx) (ts : List ℚ) :
    (runTicks s ts).m_age = s.m_age + ts.sum := by
  induction ts using List.reverseRecOn with
  | nil => simp [runTicks]
  | append_singleton l a ih =>
    rw [runTicks_snoc, TimeStepUpdate_age, ih, List.sum_append]
    simp [add_assoc]

theorem runTicks_type (s : Sfx) (ts : List ℚ) (hs : s.m_type ≠ TYPE_NONE)
    (hage : s.m_age ≤ specThreshold s.m_type) (hpos : ∀ dt ∈ ts, 0 < dt) :
    (runTicks s ts).m_type =
      if s.m_age + ts.sum > specThreshold s.m_type then TYPE_NONE else s.m_type := by
  induction ts using List.reverseRecOn with
  | nil => simp [runTicks, not_lt.mpr hage]
  | append_singleton l a ih =>
    have hl : ∀ dt ∈ l, 0 < dt := fun dt h => hpos dt (List.mem_append_left _ h)
    have ha : 0 < a := hpos a (by simp)
    rw [runTicks_snoc, TimeStepUpdate_type, ih hl, runTicks_age, List.sum_append]
    simp only [List.sum_cons, List.sum_nil, add_zero]
    by_cases h1 : s.m_age + l.sum > specThreshold s.m_type
    · have h2 : s.m_age + (l.sum + a) > specThreshold s.m_type := by linarith
      simp [h1, h2]
    · simp only [h1, if_false, hs, add_assoc]

/-- C1: an effect created with age 0 and type Explosion, Damage or Smoke is ticked
with positive time steps `ts`. After the first `n` ticks its age is the sum of
those `n` steps, and its type is `TYPE_NONE` exactly when that cumulative age is
strictly greater than the threshold of its type (0.5 / 2.0 / 8.0); otherwise,
also when the age is exactly the threshold, the type is the one it was created
with. Since the cumulative age grows with every tick, the type changes on the
first tick that takes the age past the threshold and on no earlier tick. -/
theorem C1_type_none_exactly_past_threshold (s : Sfx) (ts : List ℚ)
    (hage : s.m_age = 0) (hs : s.m_type ≠ TYPE_NONE) (hpos : ∀ dt ∈ ts, 0 < dt) (n : Nat) :
    (runTicks s (ts.take n)).m_age = (ts.take n).sum ∧
    (runTicks s (ts.take n)).m_type =
      if (ts.take n).sum > specThreshold s.m_type then TYPE_NONE else s.m_type := by
  have hthr : s.m_age ≤ specThreshold s.m_type := by
    rw [hage]
    cases h : s.m_type <;> simp [specThreshold] <;> norm_num
  have hpos2 : ∀ dt ∈ ts.take n, 0 < dt := fun dt h => hpos dt (List.mem_of_mem_take h)
  refine ⟨by rw [runTicks_age, hage, zero_add], ?_⟩
  rw [runTicks_type s (ts.take n) hs hthr hpos2, hage, zero_add]

/-- C1 witness (scenario A): an Explosion stepped by 0.4 is still an Explosion, and
after a further step of 0.2 it is `TYPE_NONE`. -/
theorem C1_witness_explosion :
    (∀ dt ∈ [(0.4 : ℚ), 0.2], 0 < dt) ∧
    (runTicks explosionAtRest [0.4]).m_type = TYPE_EXPLOSION ∧
    (runTicks explosionAtRest [0.4, 0.2]).m_type = TYPE_NONE := by
  have hpos : ∀ dt ∈ [(0.4 : ℚ), 0.2], 0 < dt := by
    intro dt h
    simp only [List.mem_cons, List.mem_singleton, List.not_mem_nil, or_false] at h
    rcases h with h | h <;> rw [h] <;> norm_num
  have h1 := (C1_type_none_exactly_past_threshold explosionAtRest [0.4, 0.2] rfl
    (by decide) hpos 1).2
  have h2 := (C1_type_none_exactly_past_threshold explosionAtRest [0.4, 0.2] rfl
    (by decide) hpos 2).2
  refine ⟨hpos, ?_, ?_⟩
  · rw [show [(0.4 : ℚ)] = List.take 1 [0.4, 0.2] from rfl, h1]
    norm_num [explosionAtRest, specThreshold]
  · rw [show [(0.4 : ℚ), 0.2] = List.take 2 [0.4, 0.2] from rfl, h2]
    norm_num [explosionAtRest, specThreshold]

/-! ## Persistence: what `Serialize` writes -/

theorem foldl_count {α : Type} (P : α → Prop) [DecidablePred P] (l : List α) (a : Nat) :
    l.foldl (fun n i => if P i then n + 1 else n) a = a + (l.filter fun i => P i).length := by
  induction l generalizing a with
  | nil => simp
  | cons x xs ih =>
    simp only [List.foldl_cons, ih, List.filter_cons]
    by_cases h : P x <;> simp [h]; omega

theorem foldl_save (sfx : Pool) (l : List (Fin MAX_SFX_PER_FRAME)) (wr : Writer) :
    l.foldl (fun wr i => if (sfx i).m_type ≠ TYPE_NONE then (sfx i).Save wr else wr) wr =
      wr ++ (l.filter fun i => (sfx i).m_type ≠ TYPE_NONE).flatMap fun i => recordOf (sfx i) := by
  induction l generalizing wr with
  | nil => simp
  | cons x xs ih =>
    simp only [List.foldl_cons, ih, List.filter_cons]
    by_cases h : (sfx x).m_type ≠ TYPE_NONE
    · simp [h, Sfx.Save, Writer.Vector3d, Writer.Float, Writer.Int32, recordOf, record]
    · simp [h]

theorem activeSlots_eq_map (sfx : Pool) :
    activeSlots sfx =
      ((List.finRange MAX_SFX_PER_FRAME).filter fun i => (sfx i).m_type ≠ TYPE_NONE).map sfx := by
  simp only [activeSlots, slots, List.ofFn_eq_map, List.filter_map]
  rfl

theorem countActive_eq (sfx : Pool) : Sfx.countActive sfx = (activeSlots sfx).length := by
  rw [activeSlots_eq_map, List.length_map, Sfx.countActive,
    foldl_count (fun i => (sfx i).m_type ≠ TYPE_NONE)]
  simp

theorem saveActive_eq (sfx : Pool) (wr : Writer) :
    Sfx.saveActive sfx wr = wr ++ (activeSlots sfx).flatMap recordOf := by
  rw [activeSlots_eq_map, Sfx.saveActive, foldl_save, List.flatMap_map]

theorem Serialize_eq (wr : Writer) (f : Frame) :
    Sfx.Serialize wr f =
      wr ++ Item.Int32 (frameActive f).length :: (frameActive f).flatMap recordOf := by
  cases hf : f.m_sfx with
  | none => simp [Sfx.Serialize, frameActive, hf, Writer.Int32]
  | some sfx =>
    simp only [Sfx.Serialize, frameActive, hf, countActive_eq]
    by_cases h : (activeSlots sfx).length = 0
    · have h0 : activeSlots sfx = [] := List.length_eq_zero.mp h
      simp [h0, Writer.Int32]
    · simp [h, saveActive_eq, Writer.Int32]

/-- C6: `Serialize` appends to the stream the count `n` of active slots of the
frame's pool as an int32 (0 when the frame has no pool), followed by one record
per active slot in increasing index order, each record being position, velocity,
age and type as integer, in that order; nothing is written for an inactive slot,
the speed is in no record, and when `n = 0` the count is all that is written. -/
theorem C6_serialize_layout (wr : Writer) (f : Frame) :
    Sfx.Serialize wr f =
        wr ++ Item.Int32 (frameActive f).length ::
          (frameActive f).flatMap
            (fun s => [Item.Vector3d s.m_pos, Item.Vector3d s.m_vel, Item.Float s.m_age,
              Item.Int32 s.m_type.toInt32]) ∧
      ((frameActive f).length = 0 → Sfx.Serialize wr f = wr ++ [Item.Int32 0]) ∧
      (f.m_sfx = none → (frameActive f).length = 0) ∧
      (∀ sfx, f.m_sfx = some sfx →
        frameActive f = (List.ofFn sfx).filter fun s => s.m_type ≠ TYPE_NONE) := by
  refine ⟨Serialize_eq wr f, ?_, ?_, ?_⟩
  · intro h
    have h0 : frameActive f = [] := List.length_eq_zero.mp h
    rw [Serialize_eq, h0]
    rfl
  · intro h
    simp [frameActive, h]
  · intro sfx h
    simp only [frameActive, h, activeSlots, slots]

/-! ## Persistence: what `Unserialize` reads -/

theorem ofInt32_toInt32 (t : TYPE) : TYPE.ofInt32 t.toInt32 = some t := by
  cases t <;> rfl

theorem Load_recordOf (s r : Sfx) (rest : Reader) :
    s.Load (recordOf r ++ rest) = some (withRecord s r, rest) := by
  simp [Sfx.Load, recordOf, record, Reader.Vector3d, Reader.Float, Reader.Int32,
    ofInt32_toInt32, withRecord]

theorem loadedInto_cons (sfx : Pool) (i : Nat) (h : i < MAX_SFX_PER_FRAME) (r : Sfx)
    (rs : List Sfx) :
    loadedInto (Function.update sfx ⟨i, h⟩ (withRecord (sfx ⟨i, h⟩) r)) (i + 1) rs =
      loadedInto sfx i (r :: rs) := by
  funext j
  by_cases hj : j = ⟨i, h⟩
  · subst hj
    simp [loadedInto]
  · have hne : j.val ≠ i := fun hv => hj (Fin.ext hv)
    simp only [loadedInto, Function.update_noteq hj]
    by_cases hle : i + 1 ≤ j.val
    · have hle2 : i ≤ j.val := by omega
      have hsub : j.val - i = (j.val - (i + 1)) + 1 := by omega
      simp only [hle, hle2, if_true, hsub, List.getElem?_cons_succ]
    · have hle2 : ¬ i ≤ j.val := by omega
      simp only [hle, hle2, if_false]

theorem loadLoop_records (rs : List Sfx) (i : Nat) (sfx : Pool) (rest : Reader)
    (hlen : i + rs.length ≤ MAX_SFX_PER_FRAME) :
    Sfx.loadLoop rs.length i sfx (rs.flatMap recordOf ++ rest) =
      some (loadedInto sfx i rs, rest) := by
  induction rs generalizing i sfx with
  | nil =>
    simp only [List.length_nil, Sfx.loadLoop, List.flatMap_nil, List.nil_append]
    congr 2
    funext j
    simp [loadedInto]
  | cons r rs ih =>
    have hi : i < MAX_SFX_PER_FRAME := by simp only [List.length_cons] at hlen; omega
    have hlen2 : i + 1 + rs.length ≤ MAX_SFX_PER_FRAME := by
      simp only [List.length_cons] at hlen; omega
    simp only [List.length_cons, Sfx.loadLoop, hi, dite_true, List.flatMap_cons,
      List.append_assoc, Load_recordOf]
    rw [ih (i + 1) _ hlen2, loadedInto_cons]

theorem loadedInto_zero_lt (sfx : Pool) (rs : List Sfx) (j : Fin MAX_SFX_PER_FRAME)
    (h : j.val < rs.length) : loadedInto sfx 0 rs j = withRecord (sfx j) (rs.get ⟨j.val, h⟩) := by
  simp [loadedInto, List.getElem?_eq_getElem h]

theorem loadedInto_zero_ge (sfx : Pool) (rs : List Sfx) (j : Fin MAX_SFX_PER_FRAME)
    (h : rs.length ≤ j.val) : loadedInto sfx 0 rs j = sfx j := by
  simp [loadedInto, List.getElem?_eq_none h]

theorem Unserialize_records (raw : Pool) (f : Frame) (rs : List Sfx) (rest : Reader)
    (h1 : rs ≠ []) (h2 : rs.length ≤ MAX_SFX_PER_FRAME) :
    Sfx.Unserialize raw (Item.Int32 rs.length :: (rs.flatMap recordOf ++ rest)) f =
      some (f.setSfx (loadedInto (Sfx.newArray raw) 0 rs), rest) := by
  have hne : (rs.length : Int) ≠ 0 := by
    have : rs.length ≠ 0 := fun h => h1 (List.length_eq_zero.mp h)
    exact_mod_cast this
  simp only [Sfx.Unserialize, Reader.Int32, hne, ne_eq, not_false_eq_true, if_true,
    Int.toNat_ofNat]
  rw [loadLoop_records rs 0 _ rest (by omega)]

/-- C7 (as stated, refuted): storage whose slots hold speed 1 is turned into a pool
by `Unserialize` of a stream with count 1 and one record; slot 0 of the new pool
has the record's fields and speed 1, not 0: neither the constructor nor `Load`
assigns `m_speed`. -/
theorem C7_counterexample_speed_not_zero :
    Sfx.Unserialize rawSpeedOne (Item.Int32 1 :: recordOf explosionAtRest) emptyFrame =
        some (emptyFrame.setSfx (loadedInto (Sfx.newArray rawSpeedOne) 0 [explosionAtRest]), []) ∧
      (loadedInto (Sfx.newArray rawSpeedOne) 0 [explosionAtRest] ⟨0, by decide⟩).m_speed = 1 ∧
      (loadedInto (Sfx.newArray rawSpeedOne) 0 [explosionAtRest] ⟨0, by decide⟩).m_speed ≠ 0 := by
  refine ⟨?_, ?_, ?_⟩
  · have h := Unserialize_records rawSpeedOne emptyFrame [explosionAtRest] []
      (by simp) (by simp [MAX_SFX_PER_FRAME])
    simpa using h
  · simp [loadedInto, withRecord, Sfx.newArray, Sfx.construct, rawSpeedOne]
  · simp [loadedInto, withRecord, Sfx.newArray, Sfx.construct, rawSpeedOne]

/-- C7 (amended): a stream that starts with the count `c` of the records `rs`,
`1 ≤ c ≤ 1024`, followed by these records, is read up to the end of the records;
the frame gets a new pool `q` in which slot `i < c` holds the position, velocity,
age and type of the `i`-th record and the speed that the storage of the new array
held in slot `i` (the constructor assigns the type only), and every slot `i ≥ c`
is a freshly constructed one, of type `TYPE_NONE`. When the count is 0 the frame
is returned as it was and nothing further is read. -/
theorem C7_unserialize_fills_low_slots (raw : Pool) (f : Frame) (rs : List Sfx)
    (rest : Reader) (h1 : 1 ≤ rs.length) (h2 : rs.length ≤ MAX_SFX_PER_FRAME) :
    (∃ q : Pool,
      Sfx.Unserialize raw (Item.Int32 rs.length :: (rs.flatMap recordOf ++ rest)) f =
          some (Frame.mk (some q) f.GetChildren, rest) ∧
        (∀ (i : Fin MAX_SFX_PER_FRAME) (h : i.val < rs.length),
          (q i).m_pos = (rs.get ⟨i.val, h⟩).m_pos ∧ (q i).m_vel = (rs.get ⟨i.val, h⟩).m_vel ∧
          (q i).m_age = (rs.get ⟨i.val, h⟩).m_age ∧ (q i).m_type = (rs.get ⟨i.val, h⟩).m_type ∧
          (q i).m_speed = (raw i).m_speed) ∧
        (∀ i : Fin MAX_SFX_PER_FRAME, rs.length ≤ i.val →
          q i = Sfx.construct (raw i) ∧ (q i).m_type = TYPE_NONE)) ∧
      Sfx.Unserialize raw (Item.Int32 0 :: rest) f = some (f, rest) := by
  refine ⟨⟨loadedInto (Sfx.newArray raw) 0 rs, ?_, ?_, ?_⟩, ?_⟩
  · have hne : rs ≠ [] := by
      intro h
      rw [h] at h1
      simp at h1
    exact Unserialize_records raw f rs rest hne h2
  · intro i h
    rw [loadedInto_zero_lt _ _ _ h]
    simp [withRecord, Sfx.newArray, Sfx.construct]
  · intro i h
    rw [loadedInto_zero_ge _ _ _ h]
    exact ⟨rfl, rfl⟩
  · simp [Sfx.Unserialize, Reader.Int32]

/-- C7 witness: a stream with count 1 and the record of one Explosion. -/
theorem C7_witness_one_record :
    1 ≤ [explosionAtRest].length ∧ [explosionAtRest].length ≤ MAX_SFX_PER_FRAME ∧
    Sfx.Unserialize rawSpeedOne (Item.Int32 0 :: []) emptyFrame = some (emptyFrame, []) :=
  ⟨by decide, by decide,
    (C7_unserialize_fills_low_slots rawSpeedOne emptyFrame [explosionAtRest] []
      (by decide) (by decide)).2⟩
/-! ## Persistence: round trip -/

theorem length_filter_range_lt (n k : Nat) :
    ((List.range n).filter fun j => decide (j < k)).length = min n k := by
  induction n with
  | zero => simp
  | succ n ih =>
    rw [List.range_succ, List.filter_append, List.length_append, ih]
    by_cases h : n < k
    · simp [h]; omega
    · simp [h]; omega

theorem length_filter_finRange_lt (n k : Nat) (h : k ≤ n) :
    ((List.finRange n).filter fun j => decide (j.val < k)).length = k := by
  have h1 := length_filter_range_lt n k
  rw [← List.map_coe_finRange, List.filter_map, List.length_map] at h1
  rw [Nat.min_eq_right h] at h1
  exact h1

theorem activeSlots_length_le (sfx : Pool) : (activeSlots sfx).length ≤ MAX_SFX_PER_FRAME := by
  rw [activeSlots_eq_map, List.length_map]
  exact (List.length_filter_le _ _).trans (by rw [List.length_finRange])

theorem activeSlots_active (sfx : Pool) (s : Sfx) (h : s ∈ activeSlots sfx) :
    s.m_type ≠ TYPE_NONE := by
  simp only [activeSlots, List.mem_filter, decide_eq_true_eq] at h
  exact h.2

theorem frameActive_length_le (f : Frame) : (frameActive f).length ≤ MAX_SFX_PER_FRAME := by
  cases hf : f.m_sfx with
  | none => simp [frameActive, hf]
  | some sfx => simpa [frameActive, hf] using activeSlots_length_le sfx

theorem frameActive_active (f : Frame) (s : Sfx) (h : s ∈ frameActive f) :
    s.m_type ≠ TYPE_NONE := by
  cases hf : f.m_sfx with
  | none => simp [frameActive, hf] at h
  | some sfx =>
    simp only [frameActive, hf] at h
    exact activeSlots_active sfx s h

theorem activeSlots_loadedInto_length (raw : Pool) (rs : List Sfx)
    (hact : ∀ s ∈ rs, s.m_type ≠ TYPE_NONE) (hlen : rs.length ≤ MAX_SFX_PER_FRAME) :
    (activeSlots (loadedInto (Sfx.newArray raw) 0 rs)).length = rs.length := by
  rw [activeSlots_eq_map, List.length_map]
  have hcongr : ((List.finRange MAX_SFX_PER_FRAME).filter fun i =>
        decide ((loadedInto (Sfx.newArray raw) 0 rs i).m_type ≠ TYPE_NONE)) =
      ((List.finRange MAX_SFX_PER_FRAME).filter fun j => decide (j.val < rs.length)) := by
    apply List.filter_congr
    intro j _
    by_cases hj : j.val < rs.length
    · rw [loadedInto_zero_lt _ _ _ hj]
      have := hact _ (List.get_mem rs j.val hj)
      simp only [List.get_eq_getElem] at this
      simp [withRecord, hj, this]
    · rw [loadedInto_zero_ge _ _ _ (by omega)]
      simp [Sfx.newArray, Sfx.construct, hj]
  rw [hcongr, length_filter_finRange_lt _ _ hlen]

/-- C2: round trip. A frame `f` whose pool holds `k ≥ 1` active effects (`k ≤ 1024`
always holds) is serialized to an empty stream, and the stream is unserialized
into a frame `g` (any frame, in particular a fresh one without a pool): the read
consumes the whole stream and gives `g` a pool `q` with exactly `k` active
effects, in which slot `i`, for every `i < k`, has the position, velocity, age
and type of the `i`-th active effect of `f` in index order. -/
theorem C2_serialize_unserialize_round_trip (raw : Pool) (f g : Frame)
    (h1 : 1 ≤ (frameActive f).length) :
    (frameActive f).length ≤ MAX_SFX_PER_FRAME ∧
    ∃ q : Pool,
      Sfx.Unserialize raw (Sfx.Serialize [] f) g = some (Frame.mk (some q) g.GetChildren, []) ∧
      (frameActive (Frame.mk (some q) g.GetChildren)).length = (frameActive f).length ∧
      Sfx.countActive q = (frameActive f).length ∧
      ∀ (i : Fin MAX_SFX_PER_FRAME) (h : i.val < (frameActive f).length),
        (q i).m_pos = ((frameActive f).get ⟨i.val, h⟩).m_pos ∧
        (q i).m_vel = ((frameActive f).get ⟨i.val, h⟩).m_vel ∧
        (q i).m_age = ((frameActive f).get ⟨i.val, h⟩).m_age ∧
        (q i).m_type = ((frameActive f).get ⟨i.val, h⟩).m_type := by
  have hle := frameActive_length_le f
  have hne : frameActive f ≠ [] := by
    intro h
    rw [h] at h1
    simp at h1
  have hlen := activeSlots_loadedInto_length raw (frameActive f) (frameActive_active f) hle
  refine ⟨hle, loadedInto (Sfx.newArray raw) 0 (frameActive f), ?_, ?_, ?_, ?_⟩
  · rw [Serialize_eq, List.nil_append]
    have h := Unserialize_records raw g (frameActive f) [] hne hle
    rw [List.append_nil] at h
    exact h
  · simpa [frameActive] using hlen
  · rw [countActive_eq, hlen]
  · intro i h
    rw [loadedInto_zero_lt _ _ _ h]
    simp [withRecord]
/-! ## Allocation -/

theorem find_finRange_some_imp {n : Nat} (p : Fin n → Bool) (i : Fin n)
    (h : (List.finRange n).find? p = some i) : p i = true ∧ ∀ j, j < i → p j = false := by
  rw [List.find?_eq_some] at h
  obtain ⟨hp, as, bs, hsplit, has⟩ := h
  refine ⟨hp, ?_⟩
  intro j hj
  have hpw := List.pairwise_lt_finRange n
  rw [hsplit, List.pairwise_append] at hpw
  have hmem : j ∈ as ++ i :: bs := hsplit ▸ List.mem_finRange j
  rcases List.mem_append.mp hmem with hin | hin
  · simpa using has j hin
  · rcases List.mem_cons.mp hin with heq | hin2
    · exact absurd heq (ne_of_lt hj)
    · have := (List.pairwise_cons.mp hpw.2.1).1 j hin2
      exact absurd hj (not_lt_of_gt this)

theorem find_finRange_some_iff {n : Nat} (p : Fin n → Bool) (i : Fin n) :
    (List.finRange n).find? p = some i ↔ p i = true ∧ ∀ j, j < i → p j = false := by
  constructor
  · exact find_finRange_some_imp p i
  · rintro ⟨hp, hlt⟩
    cases hfind : (List.finRange n).find? p with
    | none =>
      rw [List.find?_eq_none] at hfind
      exact absurd hp (hfind i (List.mem_finRange i))
    | some b =>
      obtain ⟨hb, hblt⟩ := find_finRange_some_imp p b hfind
      rcases lt_trichotomy b i with h | h | h
      · rw [hlt b h] at hb
        exact absurd hb (by simp)
      · rw [h]
      · rw [hblt i h] at hp
        exact absurd hp (by simp)

theorem find_finRange_none_iff {n : Nat} (p : Fin n → Bool) :
    (List.finRange n).find? p = none ↔ ∀ i, p i = false := by
  rw [List.find?_eq_none]
  constructor
  · intro h i
    simpa using h i (List.mem_finRange i)
  · intro h i _
    simp [h i]

theorem AllocSfxInFrame_none (raw : Pool) (kids : List Frame) :
    Sfx.AllocSfxInFrame raw (Frame.mk none kids) =
      (Frame.mk (some (Sfx.newArray raw)) kids,
        (List.finRange MAX_SFX_PER_FRAME).find? fun i =>
          decide ((Sfx.newArray raw i).m_type = TYPE_NONE)) := rfl

theorem AllocSfxInFrame_some (raw sfx : Pool) (kids : List Frame) :
    Sfx.AllocSfxInFrame raw (Frame.mk (some sfx) kids) =
      (Frame.mk (some sfx) kids,
        (List.finRange MAX_SFX_PER_FRAME).find? fun i =>
          decide ((sfx i).m_type = TYPE_NONE)) := rfl

/-- C4: `AllocSfxInFrame` leaves the frame with a pool `sfx`: the 1024 freshly
constructed slots, all of type `TYPE_NONE`, when the frame had no pool, and the
frame's own pool, the frame being unchanged, when it had one. It returns slot `i`
exactly when `i` is the smallest index whose slot in `sfx` has type `TYPE_NONE`,
and it returns null exactly when no slot of `sfx` has type `TYPE_NONE`. -/
theorem C4_alloc_returns_first_free_slot (raw : Pool) (f : Frame) :
    ∃ sfx : Pool,
      (Sfx.AllocSfxInFrame raw f).1 = Frame.mk (some sfx) f.GetChildren ∧
      (f.m_sfx = none → sfx = Sfx.newArray raw ∧ ∀ i, (sfx i).m_type = TYPE_NONE) ∧
      (∀ p, f.m_sfx = some p → sfx = p ∧ (Sfx.AllocSfxInFrame raw f).1 = f) ∧
      (∀ i, (Sfx.AllocSfxInFrame raw f).2 = some i ↔
        ((sfx i).m_type = TYPE_NONE ∧ ∀ j, j < i → (sfx j).m_type ≠ TYPE_NONE)) ∧
      ((Sfx.AllocSfxInFrame raw f).2 = none ↔ ∀ i, (sfx i).m_type ≠ TYPE_NONE) := by
  cases f with
  | mk m kids =>
    cases m with
    | none =>
      refine ⟨Sfx.newArray raw, rfl, fun _ => ⟨rfl, fun _ => rfl⟩, ?_, ?_, ?_⟩
      · intro p hp
        simp [Frame.m_sfx] at hp
      · intro i
        rw [AllocSfxInFrame_none]
        simp only [find_finRange_some_iff, decide_eq_true_eq, decide_eq_false_iff_not, ne_eq]
      · rw [AllocSfxInFrame_none]
        simp only [find_finRange_none_iff, decide_eq_false_iff_not, ne_eq]
    | some sfx =>
      refine ⟨sfx, rfl, ?_, ?_, ?_, ?_⟩
      · intro h
        simp [Frame.m_sfx] at h
      · intro p hp
        simp only [Frame.m_sfx, Option.some.injEq] at hp
        exact ⟨hp, rfl⟩
      · intro i
        rw [AllocSfxInFrame_some]
        simp only [find_finRange_some_iff, decide_eq_true_eq, decide_eq_false_iff_not, ne_eq]
      · rw [AllocSfxInFrame_some]
        simp only [find_finRange_none_iff, decide_eq_false_iff_not, ne_eq]

/-- C4 witness: on a frame without a pool the allocation creates the pool and
returns slot 0. -/
theorem C4_witness_fresh_frame :
    emptyFrame.m_sfx = none ∧
    (Sfx.AllocSfxInFrame rawSpeedOne emptyFrame).1 =
      Frame.mk (some (Sfx.newArray rawSpeedOne)) [] ∧
    (Sfx.AllocSfxInFrame rawSpeedOne emptyFrame).2 = some ⟨0, by decide⟩ := by
  obtain ⟨sfx, h1, h2, _, h4, _⟩ := C4_alloc_returns_first_free_slot rawSpeedOne emptyFrame
  obtain ⟨hs, hnone⟩ := h2 rfl
  refine ⟨rfl, ?_, ?_⟩
  · rw [h1, hs]
    rfl
  · rw [h4]
    refine ⟨hnone _, ?_⟩
    intro j hj
    exact absurd hj (by simp [Fin.lt_def])


theorem AllocSfxInFrame_full (raw : Pool) (f : Frame) (sfx : Pool) (hf : f.m_sfx = some sfx)
    (hfull : ∀ i, (sfx i).m_type ≠ TYPE_NONE) : Sfx.AllocSfxInFrame raw f = (f, none) := by
  cases f with
  | mk m kids =>
    simp only [Frame.m_sfx] at hf
    subst hf
    rw [AllocSfxInFrame_some, (find_finRange_none_iff _).mpr]
    intro i
    simpa using hfull i

theorem activeSlots_full (sfx : Pool) (hfull : ∀ i, (sfx i).m_type ≠ TYPE_NONE) :
    (activeSlots sfx).length = MAX_SFX_PER_FRAME := by
  rw [activeSlots_eq_map, List.length_map]
  have h : ((List.finRange MAX_SFX_PER_FRAME).filter fun i =>
      decide ((sfx i).m_type ≠ TYPE_NONE)) = List.finRange MAX_SFX_PER_FRAME := by
    rw [List.filter_eq_self]
    intro i _
    simpa using hfull i
  rw [h, List.length_finRange]

/-- C3: pool exhaustion is a silent no-op. On a frame whose pool has all 1024
slots active, `Add` and `AddThrustSmoke` return the frame as it was, every slot
included, so its active count is still 1024; and the number of active slots of
any frame is at most 1024. -/
theorem C3_full_pool_creation_is_noop (raw : Pool) (f : Frame) (sfx : Pool)
    (hf : f.m_sfx = some sfx) (hfull : ∀ i, (sfx i).m_type ≠ TYPE_NONE)
    (b : Body) (t : TYPE) (r1 r2 r3 speed : ℚ) (adjustpos : vector3d) :
    Sfx.Add raw f b t r1 r2 r3 = f ∧
    Sfx.AddThrustSmoke raw f b t speed adjustpos = f ∧
    (frameActive f).length = 1024 ∧
    (frameActive (Sfx.Add raw f b t r1 r2 r3)).length = 1024 ∧
    (frameActive (Sfx.AddThrustSmoke raw f b t speed adjustpos)).length = 1024 ∧
    ∀ g : Frame, (frameActive g).length ≤ 1024 := by
  have hadd : Sfx.Add raw f b t r1 r2 r3 = f := by
    simp only [Sfx.Add, AllocSfxInFrame_full raw f sfx hf hfull]
  have hsmoke : Sfx.AddThrustSmoke raw f b t speed adjustpos = f := by
    simp only [Sfx.AddThrustSmoke, AllocSfxInFrame_full raw f sfx hf hfull]
  have hcount : (frameActive f).length = 1024 := by
    simp only [frameActive, hf]
    exact activeSlots_full sfx hfull
  refine ⟨hadd, hsmoke, hcount, ?_, ?_, frameActive_length_le⟩
  · rw [hadd, hcount]
  · rw [hsmoke, hcount]

/-- C3 witness (scenario B): a pool filled with 1024 Damage effects; a further `Add`
leaves the frame as it was. -/
theorem C3_witness_full_damage_pool :
    (Frame.mk (some fullDamagePool) []).m_sfx = some fullDamagePool ∧
    (∀ i, (fullDamagePool i).m_type ≠ TYPE_NONE) ∧
    Sfx.Add rawSpeedOne (Frame.mk (some fullDamagePool) []) bodyAtRest TYPE_DAMAGE 0 0 0 =
      Frame.mk (some fullDamagePool) [] ∧
    (frameActive (Sfx.Add rawSpeedOne (Frame.mk (some fullDamagePool) []) bodyAtRest
      TYPE_DAMAGE 0 0 0)).length = 1024 :=
  have h := C3_full_pool_creation_is_noop rawSpeedOne (Frame.mk (some fullDamagePool) [])
    fullDamagePool rfl (fun _ => by simp [fullDamagePool]) bodyAtRest TYPE_DAMAGE 0 0 0 0
    ⟨0, 0, 0⟩
  ⟨rfl, fun _ => by simp [fullDamagePool], h.1, h.2.2.2.1⟩


/-! ## Effect creation -/

theorem vector3d_add_def (a b : vector3d) : a + b = ⟨a.x + b.x, a.y + b.y, a.z + b.z⟩ := rfl

theorem AllocSfxInFrame_fst (raw : Pool) (f : Frame) :
    (Sfx.AllocSfxInFrame raw f).1 = Frame.mk (some (ensuredPool raw f)) f.GetChildren := by
  cases f with
  | mk m kids => cases m <;> rfl

theorem AllocSfxInFrame_emptyFrame (raw : Pool) :
    (Sfx.AllocSfxInFrame raw emptyFrame).2 = some ⟨0, by decide⟩ := by
  rw [emptyFrame, AllocSfxInFrame_none]
  simp only [find_finRange_some_iff, decide_eq_true_eq, decide_eq_false_iff_not]
  refine ⟨rfl, ?_⟩
  intro j hj
  exact absurd hj (by simp [Fin.lt_def])

theorem modifySlot_alloc (raw : Pool) (f : Frame) (i : Fin MAX_SFX_PER_FRAME) (g : Sfx → Sfx) :
    Sfx.modifySlot (Sfx.AllocSfxInFrame raw f).1 i g =
      Frame.mk (some (Function.update (ensuredPool raw f) i (g (ensuredPool raw f i))))
        f.GetChildren := by
  rw [AllocSfxInFrame_fst]
  rfl

theorem Add_of_alloc (raw : Pool) (f : Frame) (b : Body) (t : TYPE) (r1 r2 r3 : ℚ)
    (i : Fin MAX_SFX_PER_FRAME) (h : (Sfx.AllocSfxInFrame raw f).2 = some i) :
    Sfx.Add raw f b t r1 r2 r3 =
      Frame.mk (some (Function.update (ensuredPool raw f) i
        { m_pos := b.GetPosition,
          m_vel := b.GetVelocity + vector3d.scale 200.0 ⟨r1 - 0.5, r2 - 0.5, r3 - 0.5⟩,
          m_age := 0,
          m_speed := (ensuredPool raw f i).m_speed,
          m_type := t }))
        f.GetChildren := by
  have hpair : Sfx.AllocSfxInFrame raw f = ((Sfx.AllocSfxInFrame raw f).1, some i) := by
    rw [← h]
  rw [Sfx.Add, hpair]
  simp only []
  rw [modifySlot_alloc]
  rfl

theorem AddThrustSmoke_of_alloc (raw : Pool) (f : Frame) (b : Body) (t : TYPE) (speed : ℚ)
    (adjustpos : vector3d) (i : Fin MAX_SFX_PER_FRAME)
    (h : (Sfx.AllocSfxInFrame raw f).2 = some i) :
    Sfx.AddThrustSmoke raw f b t speed adjustpos =
      Frame.mk (some (Function.update (ensuredPool raw f) i
        { m_pos := b.GetPosition + adjustpos,
          m_vel := ⟨0, 0, 0⟩,
          m_age := 0,
          m_speed := speed,
          m_type := t }))
        f.GetChildren := by
  have hpair : Sfx.AllocSfxInFrame raw f = ((Sfx.AllocSfxInFrame raw f).1, some i) := by
    rw [← h]
  rw [Sfx.AddThrustSmoke, hpair]
  simp only []
  rw [modifySlot_alloc]
  rfl

theorem AllocSfxInFrame_snd (raw : Pool) (f : Frame) :
    (Sfx.AllocSfxInFrame raw f).2 =
      (List.finRange MAX_SFX_PER_FRAME).find? fun i =>
        decide ((ensuredPool raw f i).m_type = TYPE_NONE) := by
  cases f with
  | mk m kids =>
    cases m with
    | none =>
      have hp : ensuredPool raw (Frame.mk none kids) = Sfx.newArray raw := rfl
      rw [hp, AllocSfxInFrame_none]
    | some sfx =>
      have hp : ensuredPool raw (Frame.mk (some sfx) kids) = sfx := rfl
      rw [hp, AllocSfxInFrame_some]

theorem AllocSfxInFrame_of_free (raw : Pool) (f : Frame)
    (hfree : ∃ j, (ensuredPool raw f j).m_type = TYPE_NONE) :
    ∃ i, (Sfx.AllocSfxInFrame raw f).2 = some i ∧ (ensuredPool raw f i).m_type = TYPE_NONE := by
  obtain ⟨j, hj⟩ := hfree
  cases h : (Sfx.AllocSfxInFrame raw f).2 with
  | none =>
    rw [AllocSfxInFrame_snd, find_finRange_none_iff] at h
    have := h j
    simp [hj] at this
  | some i =>
    refine ⟨i, rfl, ?_⟩
    rw [AllocSfxInFrame_snd] at h
    simpa using List.find?_some h

/-- C8: when the pool of the body's frame has a free slot (a frame without a pool
gets a new one, whose slots are all free), the allocation returns a slot `i` that
was free, and `Add` with type `t` and the three draws `r1 r2 r3` of `[0, 1)`
leaves in slot `i` of the frame's pool age 0, the body's position, type `t`, and
as velocity the body's velocity plus a jitter that is `200 * (r - 0.5)` on each
axis; each jitter component lies in `[-100, 100]`. -/
theorem C8_add_fills_allocated_slot (raw : Pool) (f : Frame) (b : Body) (t : TYPE)
    (r1 r2 r3 : ℚ) (hfree : ∃ j, (ensuredPool raw f j).m_type = TYPE_NONE)
    (h1 : 0 ≤ r1 ∧ r1 < 1) (h2 : 0 ≤ r2 ∧ r2 < 1) (h3 : 0 ≤ r3 ∧ r3 < 1) :
    ∃ (i : Fin MAX_SFX_PER_FRAME) (q : Pool),
      (Sfx.AllocSfxInFrame raw f).2 = some i ∧
      (ensuredPool raw f i).m_type = TYPE_NONE ∧
      (Sfx.Add raw f b t r1 r2 r3).m_sfx = some q ∧
      (q i).m_age = 0 ∧ (q i).m_pos = b.GetPosition ∧ (q i).m_type = t ∧
      (q i).m_vel = b.GetVelocity +
        ⟨200 * (r1 - 0.5), 200 * (r2 - 0.5), 200 * (r3 - 0.5)⟩ ∧
      (-100 ≤ 200 * (r1 - 0.5) ∧ 200 * (r1 - 0.5) ≤ 100) ∧
      (-100 ≤ 200 * (r2 - 0.5) ∧ 200 * (r2 - 0.5) ≤ 100) ∧
      (-100 ≤ 200 * (r3 - 0.5) ∧ 200 * (r3 - 0.5) ≤ 100) := by
  obtain ⟨i, halloc, hi⟩ := AllocSfxInFrame_of_free raw f hfree
  rw [Add_of_alloc raw f b t r1 r2 r3 i halloc]
  refine ⟨i, _, halloc, hi, rfl, ?_, ?_, ?_, ?_, ?_, ?_, ?_⟩
  · simp
  · simp
  · simp
  · simp only [Function.update_same, vector3d.scale]
    norm_num
  · constructor <;> linarith [h1.1, h1.2]
  · constructor <;> linarith [h2.1, h2.2]
  · constructor <;> linarith [h3.1, h3.2]

/-- C8 witness: a frame without a pool; the draws are 0, 1/2 and 3/4. -/
theorem C8_witness_first_effect :
    (∃ j, (ensuredPool rawSpeedOne emptyFrame j).m_type = TYPE_NONE) ∧
    ((0 : ℚ) ≤ 0 ∧ (0 : ℚ) < 1) ∧ ((0 : ℚ) ≤ 1 / 2 ∧ (1 / 2 : ℚ) < 1) ∧
    ((0 : ℚ) ≤ 3 / 4 ∧ (3 / 4 : ℚ) < 1) ∧
    ∃ (i : Fin MAX_SFX_PER_FRAME) (q : Pool),
      (Sfx.AllocSfxInFrame rawSpeedOne emptyFrame).2 = some i ∧
      (Sfx.Add rawSpeedOne emptyFrame bodyAtRest TYPE_EXPLOSION 0 (1 / 2) (3 / 4)).m_sfx =
        some q ∧
      (q i).m_age = 0 ∧ (q i).m_type = TYPE_EXPLOSION :=
  have h := C8_add_fills_allocated_slot rawSpeedOne emptyFrame bodyAtRest TYPE_EXPLOSION
    0 (1 / 2) (3 / 4) ⟨⟨0, by decide⟩, rfl⟩ (by norm_num) (by norm_num) (by norm_num)
  ⟨⟨⟨0, by decide⟩, rfl⟩, by norm_num, by norm_num, by norm_num,
    h.elim fun i hi => hi.elim fun q hq => ⟨i, q, hq.1, hq.2.2.1, hq.2.2.2.1, hq.2.2.2.2.2.1⟩⟩

theorem TimeStepUpdate_pos_at_rest (s : Sfx) (dt : ℚ) (hv : s.m_vel = ⟨0, 0, 0⟩) :
    (s.TimeStepUpdate dt).m_pos = s.m_pos := by
  rw [TimeStepUpdate_pos, hv, vector3d_add_def]
  simp [vector3d.scale]

theorem runTicks_at_rest (s : Sfx) (ts : List ℚ) (hv : s.m_vel = ⟨0, 0, 0⟩) :
    (runTicks s ts).m_vel = ⟨0, 0, 0⟩ ∧ (runTicks s ts).m_pos = s.m_pos := by
  induction ts using List.reverseRecOn with
  | nil => exact ⟨hv, rfl⟩
  | append_singleton l a ih =>
    rw [runTicks_snoc, TimeStepUpdate_vel, TimeStepUpdate_pos_at_rest _ _ ih.1]
    exact ih

/-- C9: when the pool of the body's frame has a free slot (a frame without a pool
gets a new one, whose slots are all free), the allocation returns a slot `i` that
was free, and `AddThrustSmoke` with type `t`, speed `s` and offset `d` leaves in
slot `i` of the frame's pool age 0, speed `s`, the body's position plus `d`, the
zero velocity and type `t`; and any sequence of ticks applied to that effect
leaves its position where it was. -/
theorem C9_thrust_smoke_fills_allocated_slot (raw : Pool) (f : Frame) (b : Body) (t : TYPE)
    (s : ℚ) (d : vector3d) (hfree : ∃ j, (ensuredPool raw f j).m_type = TYPE_NONE) :
    ∃ (i : Fin MAX_SFX_PER_FRAME) (q : Pool),
      (Sfx.AllocSfxInFrame raw f).2 = some i ∧
      (ensuredPool raw f i).m_type = TYPE_NONE ∧
      (Sfx.AddThrustSmoke raw f b t s d).m_sfx = some q ∧
      (q i).m_age = 0 ∧ (q i).m_speed = s ∧ (q i).m_pos = b.GetPosition + d ∧
      (q i).m_vel = ⟨0, 0, 0⟩ ∧ (q i).m_type = t ∧
      ∀ ts : List ℚ, (runTicks (q i) ts).m_pos = b.GetPosition + d := by
  obtain ⟨i, halloc, hi⟩ := AllocSfxInFrame_of_free raw f hfree
  rw [AddThrustSmoke_of_alloc raw f b t s d i halloc]
  refine ⟨i, _, halloc, hi, rfl, ?_, ?_, ?_, ?_, ?_, ?_⟩
  · simp
  · simp
  · simp
  · simp
  · simp
  · intro ts
    rw [(runTicks_at_rest _ ts (by simp)).2]
    simp

/-- C9 witness: the first trail effect of a frame without a pool. -/
theorem C9_witness_first_trail :
    (∃ j, (ensuredPool rawSpeedOne emptyFrame j).m_type = TYPE_NONE) ∧
    ∃ (i : Fin MAX_SFX_PER_FRAME) (q : Pool),
      (Sfx.AllocSfxInFrame rawSpeedOne emptyFrame).2 = some i ∧
      (Sfx.AddThrustSmoke rawSpeedOne emptyFrame bodyAtRest TYPE_SMOKE 5 ⟨1, 2, 3⟩).m_sfx =
        some q ∧
      (q i).m_speed = 5 ∧ (q i).m_type = TYPE_SMOKE :=
  have h := C9_thrust_smoke_fills_allocated_slot rawSpeedOne emptyFrame bodyAtRest TYPE_SMOKE
    5 ⟨1, 2, 3⟩ ⟨⟨0, by decide⟩, rfl⟩
  ⟨⟨⟨0, by decide⟩, rfl⟩,
    h.elim fun i hi => hi.elim fun q hq =>
      ⟨i, q, hq.1, hq.2.2.1, hq.2.2.2.2.1, hq.2.2.2.2.2.2.2.1⟩⟩

/-! ## Traversal of the frame tree -/

theorem foldl_update_slots (P : Sfx → Prop) [DecidablePred P] (g : Sfx → Sfx)
    (l : List (Fin MAX_SFX_PER_FRAME)) (hl : l.Nodup) (sfx : Pool) :
    l.foldl (fun sfx i => if P (sfx i) then Function.update sfx i (g (sfx i)) else sfx) sfx =
      fun j => if j ∈ l ∧ P (sfx j) then g (sfx j) else sfx j := by
  induction l generalizing sfx with
  | nil => simp
  | cons x xs ih =>
    have hx : x ∉ xs := (List.nodup_cons.mp hl).1
    rw [List.foldl_cons, ih (List.nodup_cons.mp hl).2]
    funext j
    by_cases hjx : j = x
    · subst hjx
      by_cases hp : P (sfx j) <;> simp [hx, hp]
    · have hne : ∀ v, Function.update sfx x v j = sfx j := fun v => Function.update_noteq hjx v sfx
      by_cases hp : P (sfx x) <;> simp [hp, hne, hjx]

theorem timeStepPool_apply (timeStep : ℚ) (sfx : Pool) (i : Fin MAX_SFX_PER_FRAME) :
    Sfx.timeStepPool timeStep sfx i =
      if (sfx i).m_type ≠ TYPE_NONE then (sfx i).TimeStepUpdate timeStep else sfx i := by
  rw [Sfx.timeStepPool,
    foldl_update_slots (fun s => s.m_type ≠ TYPE_NONE) (fun s => s.TimeStepUpdate timeStep)
      _ (List.nodup_finRange _) sfx]
  simp only [List.mem_finRange, true_and]

theorem TimeStepAllKids_eq_map (timeStep : ℚ) (kids : List Frame) :
    Sfx.TimeStepAllKids timeStep kids = kids.map (Sfx.TimeStepAll timeStep) := by
  induction kids with
  | nil => simp [Sfx.TimeStepAllKids]
  | cons k ks ih => simp [Sfx.TimeStepAllKids, ih]

theorem TimeStepAll_m_sfx (timeStep : ℚ) (f : Frame) :
    (Sfx.TimeStepAll timeStep f).m_sfx = f.m_sfx.map (Sfx.timeStepPool timeStep) := by
  cases f with
  | mk m kids => simp [Sfx.TimeStepAll, Frame.m_sfx]

theorem TimeStepAll_children (timeStep : ℚ) (f : Frame) :
    (Sfx.TimeStepAll timeStep f).GetChildren = f.GetChildren.map (Sfx.TimeStepAll timeStep) := by
  cases f with
  | mk m kids => simp [Sfx.TimeStepAll, Frame.GetChildren, TimeStepAllKids_eq_map]

theorem TimeStepAll_descend (timeStep : ℚ) (path : List Nat) (root : Frame) :
    (Sfx.TimeStepAll timeStep root).descend path =
      (root.descend path).map (Sfx.TimeStepAll timeStep) := by
  induction path generalizing root with
  | nil => simp [Frame.descend]
  | cons k path ih =>
    simp only [Frame.descend, TimeStepAll_children, List.getElem?_map]
    cases h : root.GetChildren[k]? with
    | none => simp
    | some kid => simp [ih kid]

theorem Render_fst (s : Sfx) (env : RenderEnv) (ftransform : matrix4x4d) :
    (s.Render env ftransform).1 = s := by
  cases h : s.m_type <;> simp only [Sfx.Render, h]

theorem renderSlot_fst (ftran : matrix4x4d) (st : Pool × RenderEnv)
    (i : Fin MAX_SFX_PER_FRAME) : (Sfx.renderSlot ftran st i).1 = st.1 := by
  unfold Sfx.renderSlot
  by_cases h : (st.1 i).m_type ≠ TYPE_NONE
  · rw [if_pos h]
    show Function.update st.1 i ((st.1 i).Render st.2 ftran).1 = st.1
    rw [Render_fst, Function.update_eq_self]
  · rw [if_neg h]

theorem foldl_renderSlot_fst (ftran : matrix4x4d) (l : List (Fin MAX_SFX_PER_FRAME))
    (st : Pool × RenderEnv) : (l.foldl (Sfx.renderSlot ftran) st).1 = st.1 := by
  induction l generalizing st with
  | nil => rfl
  | cons x xs ih => rw [List.foldl_cons, ih, renderSlot_fst]

theorem renderPool_fst (ftran : matrix4x4d) (sfx : Pool) (env : RenderEnv) :
    (Sfx.renderPool ftran sfx env).1 = sfx :=
  foldl_renderSlot_fst ftran _ (sfx, env)

theorem RenderAll_some (G : Frame → Frame → matrix4x4d) (camFrame : Frame) (sfx : Pool)
    (kids : List Frame) (env : RenderEnv) :
    Sfx.RenderAll G camFrame (Frame.mk (some sfx) kids) env =
      (Frame.mk
        (some (Sfx.renderPool (G (Frame.mk (some sfx) kids) camFrame) sfx
          (env.call (RenderCall.GetFrameTransform (Frame.mk (some sfx) kids)))).1)
        (Sfx.RenderAllKids G camFrame kids
          (Sfx.renderPool (G (Frame.mk (some sfx) kids) camFrame) sfx
            (env.call (RenderCall.GetFrameTransform (Frame.mk (some sfx) kids)))).2).1,
       (Sfx.RenderAllKids G camFrame kids
          (Sfx.renderPool (G (Frame.mk (some sfx) kids) camFrame) sfx
            (env.call (RenderCall.GetFrameTransform (Frame.mk (some sfx) kids)))).2).2) :=
  rfl

theorem RenderAll_none (G : Frame → Frame → matrix4x4d) (camFrame : Frame)
    (kids : List Frame) (env : RenderEnv) :
    Sfx.RenderAll G camFrame (Frame.mk none kids) env =
      (Frame.mk none (Sfx.RenderAllKids G camFrame kids env).1,
        (Sfx.RenderAllKids G camFrame kids env).2) :=
  rfl

theorem RenderAllKids_cons (G : Frame → Frame → matrix4x4d) (camFrame : Frame)
    (kid : Frame) (kids : List Frame) (env : RenderEnv) :
    Sfx.RenderAllKids G camFrame (kid :: kids) env =
      ((Sfx.RenderAll G camFrame kid env).1 ::
          (Sfx.RenderAllKids G camFrame kids (Sfx.RenderAll G camFrame kid env).2).1,
        (Sfx.RenderAllKids G camFrame kids (Sfx.RenderAll G camFrame kid env).2).2) :=
  rfl

mutual
theorem RenderAll_fst (G : Frame → Frame → matrix4x4d) (camFrame : Frame) :
    ∀ (f : Frame) (env : RenderEnv), (Sfx.RenderAll G camFrame f env).1 = f
  | Frame.mk (some sfx) kids, env => by
    rw [RenderAll_some, renderPool_fst, RenderAllKids_fst G camFrame kids]
  | Frame.mk none kids, env => by
    rw [RenderAll_none, RenderAllKids_fst G camFrame kids]
theorem RenderAllKids_fst (G : Frame → Frame → matrix4x4d) (camFrame : Frame) :
    ∀ (kids : List Frame) (env : RenderEnv), (Sfx.RenderAllKids G camFrame kids env).1 = kids
  | [], _ => rfl
  | kid :: kids, env => by
    rw [RenderAllKids_cons, RenderAll_fst G camFrame kid, RenderAllKids_fst G camFrame kids]
end

/-- C10: rendering is read-only on effect state. `Render` returns the effect record
it was called on with age, position, velocity, speed and type as they were, for
every type and every transform; and `RenderAll` returns the frame tree it was
called on, so every slot of every frame's pool is as it was. -/
theorem C10_render_leaves_effects_unchanged (s : Sfx) (env : RenderEnv)
    (ftransform : matrix4x4d) (G : Frame → Frame → matrix4x4d) (camFrame root : Frame) :
    ((s.Render env ftransform).1.m_age = s.m_age ∧
      (s.Render env ftransform).1.m_pos = s.m_pos ∧
      (s.Render env ftransform).1.m_vel = s.m_vel ∧
      (s.Render env ftransform).1.m_speed = s.m_speed ∧
      (s.Render env ftransform).1.m_type = s.m_type) ∧
    (Sfx.RenderAll G camFrame root env).1 = root := by
  rw [Render_fst, RenderAll_fst]
  exact ⟨⟨rfl, rfl, rfl, rfl, rfl⟩, rfl⟩


/-! ## Scenario C -/

theorem filter_range_lt (n k : Nat) (h : k ≤ n) :
    ((List.range n).filter fun j => decide (j < k)) = List.range k := by
  induction n with
  | zero =>
    have : k = 0 := by omega
    subst this
    rfl
  | succ n ih =>
    rw [List.range_succ, List.filter_append]
    by_cases hk : k ≤ n
    · rw [ih hk]
      have : ¬ n < k := by omega
      simp [this]
    · have hkn : k = n + 1 := by omega
      subst hkn
      have hall : ((List.range n).filter fun j => decide (j < n + 1)) = List.range n := by
        rw [List.filter_eq_self]
        intro a ha
        have := List.mem_range.mp ha
        simp only [decide_eq_true_eq]
        omega
      rw [hall, List.range_succ]
      simp

theorem filter_finRange_lt (n k : Nat) (h : k ≤ n) :
    ((List.finRange n).filter fun j => decide (j.val < k)) =
      (List.finRange k).map (Fin.castLE h) := by
  apply List.map_injective_iff.mpr Fin.val_injective
  have h1 : List.map Fin.val ((List.finRange n).filter fun j => decide (j.val < k)) =
      (List.map Fin.val (List.finRange n)).filter fun j => decide (j < k) :=
    (List.filter_map (p := fun j => decide (j < k)) Fin.val (List.finRange n)).symm
  have h2 : (Fin.val ∘ Fin.castLE h) = (Fin.val : Fin k → Nat) := by
    funext j
    rfl
  rw [h1, List.map_coe_finRange, filter_range_lt n k h, List.map_map, h2,
    List.map_coe_finRange]

theorem activeSlots_of_leading (sfx : Pool) (k : Nat) (hk : k ≤ MAX_SFX_PER_FRAME)
    (h : ∀ j : Fin MAX_SFX_PER_FRAME, (sfx j).m_type ≠ TYPE_NONE ↔ j.val < k) :
    activeSlots sfx = (List.finRange k).map fun j => sfx (Fin.castLE hk j) := by
  rw [activeSlots_eq_map]
  have hcongr : ((List.finRange MAX_SFX_PER_FRAME).filter fun i =>
        decide ((sfx i).m_type ≠ TYPE_NONE)) =
      ((List.finRange MAX_SFX_PER_FRAME).filter fun j => decide (j.val < k)) := by
    apply List.filter_congr
    intro j _
    simp only [decide_eq_decide]
    exact h j
  rw [hcongr, filter_finRange_lt _ _ hk, List.map_map]
  rfl


theorem AllocSfxInFrame_index (raw sfx : Pool) (kids : List Frame)
    (i : Fin MAX_SFX_PER_FRAME) (hfree : (sfx i).m_type = TYPE_NONE)
    (hbelow : ∀ j, j < i → (sfx j).m_type ≠ TYPE_NONE) :
    (Sfx.AllocSfxInFrame raw (Frame.mk (some sfx) kids)).2 = some i := by
  rw [AllocSfxInFrame_some]
  simp only [find_finRange_some_iff, decide_eq_true_eq, decide_eq_false_iff_not]
  exact ⟨hfree, hbelow⟩

theorem poolAfterFirst_apply (j : Fin MAX_SFX_PER_FRAME) :
    poolAfterFirst j = if j.val = 0 then firstSmoke else Sfx.construct (rawSpeedOne j) := by
  simp only [poolAfterFirst, Function.update_apply, Fin.ext_iff]
  rfl

theorem poolAfterSecond_apply (j : Fin MAX_SFX_PER_FRAME) :
    poolAfterSecond j =
      if j.val = 1 then secondSmoke
      else if j.val = 0 then firstSmoke else Sfx.construct (rawSpeedOne j) := by
  simp only [poolAfterSecond, Function.update_apply, Fin.ext_iff, poolAfterFirst_apply]

theorem poolAfterThird_apply (j : Fin MAX_SFX_PER_FRAME) :
    poolAfterThird j =
      if j.val = 2 then thirdDamage
      else if j.val = 1 then secondSmoke
      else if j.val = 0 then firstSmoke else Sfx.construct (rawSpeedOne j) := by
  simp only [poolAfterThird, Function.update_apply, Fin.ext_iff, poolAfterSecond_apply]

theorem smokeSmokeDamage_eq : smokeSmokeDamage = Frame.mk (some poolAfterThird) [] := by
  have e1 : Sfx.AddThrustSmoke rawSpeedOne emptyFrame bodyAtRest TYPE_SMOKE 5 ⟨1, 0, 0⟩ =
      Frame.mk (some poolAfterFirst) [] := by
    rw [AddThrustSmoke_of_alloc _ _ _ _ _ _ _ (AllocSfxInFrame_emptyFrame _)]
    have hrec : Sfx.mk (bodyAtRest.GetPosition + ⟨1, 0, 0⟩) ⟨0, 0, 0⟩ 0 5 TYPE_SMOKE =
        firstSmoke := by
      simp [bodyAtRest, firstSmoke, vector3d_add_def]
    rw [hrec]
    rfl
  have a2 : (Sfx.AllocSfxInFrame rawSpeedOne (Frame.mk (some poolAfterFirst) [])).2 =
      some ⟨1, by decide⟩ := by
    apply AllocSfxInFrame_index
    · rw [poolAfterFirst_apply]
      simp [Sfx.construct]
    · intro j hj
      have hj0 : j.val = 0 := by
        have : j.val < 1 := hj
        omega
      rw [poolAfterFirst_apply]
      simp [hj0, firstSmoke]
  have e2 : Sfx.AddThrustSmoke rawSpeedOne (Frame.mk (some poolAfterFirst) []) bodyAtRest
      TYPE_SMOKE 6 ⟨2, 0, 0⟩ = Frame.mk (some poolAfterSecond) [] := by
    rw [AddThrustSmoke_of_alloc _ _ _ _ _ _ _ a2]
    have hrec : Sfx.mk (bodyAtRest.GetPosition + ⟨2, 0, 0⟩) ⟨0, 0, 0⟩ 0 6 TYPE_SMOKE =
        secondSmoke := by
      simp [bodyAtRest, secondSmoke, vector3d_add_def]
    rw [hrec]
    rfl
  have a3 : (Sfx.AllocSfxInFrame rawSpeedOne (Frame.mk (some poolAfterSecond) [])).2 =
      some ⟨2, by decide⟩ := by
    apply AllocSfxInFrame_index
    · rw [poolAfterSecond_apply]
      simp [Sfx.construct]
    · intro j hj
      have hj2 : j.val < 2 := hj
      rw [poolAfterSecond_apply]
      by_cases h1 : j.val = 1
      · simp [h1, secondSmoke]
      · have h0 : j.val = 0 := by omega
        simp [h0, firstSmoke]
  have e3 : Sfx.Add rawSpeedOne (Frame.mk (some poolAfterSecond) []) bodyAtRest
      TYPE_DAMAGE (1 / 2) (1 / 2) (1 / 2) = Frame.mk (some poolAfterThird) [] := by
    rw [Add_of_alloc _ _ _ _ _ _ _ _ a3]
    have hsp : (ensuredPool rawSpeedOne (Frame.mk (some poolAfterSecond) [])
        ⟨2, by decide⟩).m_speed = 1 := by
      show (poolAfterSecond ⟨2, by decide⟩).m_speed = 1
      rw [poolAfterSecond_apply]
      simp [Sfx.construct, rawSpeedOne]
    have hrec : Sfx.mk bodyAtRest.GetPosition
        (bodyAtRest.GetVelocity + vector3d.scale 200.0 ⟨1 / 2 - 0.5, 1 / 2 - 0.5, 1 / 2 - 0.5⟩)
        0 (ensuredPool rawSpeedOne (Frame.mk (some poolAfterSecond) []) ⟨2, by decide⟩).m_speed
        TYPE_DAMAGE = thirdDamage := by
      rw [hsp]
      simp only [bodyAtRest, thirdDamage, vector3d_add_def, vector3d.scale]
      norm_num
    rw [hrec]
    rfl
  rw [smokeSmokeDamage, e1, e2, e3]

theorem frameActive_smokeSmokeDamage :
    frameActive smokeSmokeDamage = [firstSmoke, secondSmoke, thirdDamage] := by
  have hleading : ∀ j : Fin MAX_SFX_PER_FRAME,
      (poolAfterThird j).m_type ≠ TYPE_NONE ↔ j.val < 3 := by
    intro j
    rw [poolAfterThird_apply]
    by_cases h2 : j.val = 2
    · simp [h2, thirdDamage]
    · by_cases h1 : j.val = 1
      · simp [h1, secondSmoke]
      · by_cases h0 : j.val = 0
        · simp [h0, firstSmoke]
        · have : ¬ j.val < 3 := by omega
          simp [h2, h1, h0, this, Sfx.construct]
  rw [smokeSmokeDamage_eq]
  show activeSlots poolAfterThird = _
  rw [activeSlots_of_leading poolAfterThird 3 (by decide) hleading]
  have hfin : List.finRange 3 = [⟨0, by decide⟩, ⟨1, by decide⟩, ⟨2, by decide⟩] := by decide
  rw [hfin]
  simp only [List.map_cons, List.map_nil, poolAfterThird_apply]
  rfl

/-- C2 witness (scenario C): the effects Smoke, Smoke, Damage created in one frame are
its three active effects in creation order; serialized and unserialized into a
frame without a pool they give a pool with 3 active effects whose slots 0, 1, 2
have the position and type of the first, second and third effect. -/
theorem C2_witness_smoke_smoke_damage :
    1 ≤ (frameActive smokeSmokeDamage).length ∧
    frameActive smokeSmokeDamage = [firstSmoke, secondSmoke, thirdDamage] ∧
    ∃ q : Pool,
      Sfx.Unserialize rawSpeedOne (Sfx.Serialize [] smokeSmokeDamage) emptyFrame =
        some (Frame.mk (some q) [], []) ∧
      (frameActive (Frame.mk (some q) [])).length = 3 ∧
      ((q ⟨0, by decide⟩).m_pos = firstSmoke.m_pos ∧ (q ⟨0, by decide⟩).m_type = TYPE_SMOKE) ∧
      ((q ⟨1, by decide⟩).m_pos = secondSmoke.m_pos ∧ (q ⟨1, by decide⟩).m_type = TYPE_SMOKE) ∧
      ((q ⟨2, by decide⟩).m_pos = thirdDamage.m_pos ∧
        (q ⟨2, by decide⟩).m_type = TYPE_DAMAGE) := by
  have hact := frameActive_smokeSmokeDamage
  have h1 : 1 ≤ (frameActive smokeSmokeDamage).length := by
    rw [hact]
    decide
  obtain ⟨_, q, hq, hlen, _, hslots⟩ :=
    C2_serialize_unserialize_round_trip rawSpeedOne smokeSmokeDamage emptyFrame h1
  have hthree : (frameActive smokeSmokeDamage).length = 3 := by
    rw [hact]
    rfl
  have s0 := hslots ⟨0, by decide⟩ (by rw [hthree]; decide)
  have s1 := hslots ⟨1, by decide⟩ (by rw [hthree]; decide)
  have s2 := hslots ⟨2, by decide⟩ (by rw [hthree]; decide)
  simp only [List.get_eq_getElem, hact] at s0 s1 s2
  refine ⟨h1, hact, q, hq, ?_, ⟨s0.1, ?_⟩, ⟨s1.1, ?_⟩, ⟨s2.1, ?_⟩⟩
  · rw [← hthree]
    exact hlen
  · rw [s0.2.2.2]
    rfl
  · rw [s1.2.2.2]
    rfl
  · rw [s2.2.2.2]
    rfl

/-- C6 witness: a frame without a pool is serialized as the count 0 and nothing else,
and the frame of scenario C as the count 3 followed by its three records. -/
theorem C6_witness_empty_and_three :
    (frameActive emptyFrame).length = 0 ∧
    emptyFrame.m_sfx = none ∧
    Sfx.Serialize [] emptyFrame = [Item.Int32 0] ∧
    Sfx.Serialize [] smokeSmokeDamage =
      [Item.Int32 3,
        Item.Vector3d ⟨1, 0, 0⟩, Item.Vector3d ⟨0, 0, 0⟩, Item.Float 0, Item.Int32 3,
        Item.Vector3d ⟨2, 0, 0⟩, Item.Vector3d ⟨0, 0, 0⟩, Item.Float 0, Item.Int32 3,
        Item.Vector3d ⟨0, 0, 0⟩, Item.Vector3d ⟨0, 0, 0⟩, Item.Float 0, Item.Int32 2] := by
  refine ⟨rfl, rfl, ?_, ?_⟩
  · exact (C6_serialize_layout [] emptyFrame).2.1 rfl
  · rw [(C6_serialize_layout [] smokeSmokeDamage).1, frameActive_smokeSmokeDamage]
    rfl

/-! ## Age of an effect over its life -/

theorem timeStepPool_eq_tickSlot (timeStep : ℚ) (sfx : Pool) (i : Fin MAX_SFX_PER_FRAME) :
    Sfx.timeStepPool timeStep sfx i = tickSlot (sfx i) timeStep :=
  timeStepPool_apply timeStep sfx i

theorem TimeStepUpdate_none (s : Sfx) (dt : ℚ) (h : s.m_type = TYPE_NONE) :
    s.TimeStepUpdate dt =
      { s with m_age := s.m_age + dt, m_pos := s.m_pos + vector3d.scale dt s.m_vel } := by
  cases s with
  | mk p v a sp t =>
    simp only at h
    subst h
    rfl

/-- C12 (as stated, refuted): `TimeStepUpdate` with time step 1 on a record of type
`TYPE_NONE` that holds age 0, position (0, 0, 0) and velocity (1, 0, 0) gives age
1 and position (1, 0, 0); and the loop of `TimeStepAll` over a pool whose slots
all hold that record leaves slot 0 as it was, so it did not apply the update
to it. -/
theorem C12_counterexample_none_record_ages :
    driftingNone.m_type = TYPE_NONE ∧
    driftingNone.m_age = 0 ∧ (driftingNone.TimeStepUpdate 1).m_age = 1 ∧
    driftingNone.m_pos = ⟨0, 0, 0⟩ ∧ (driftingNone.TimeStepUpdate 1).m_pos = ⟨1, 0, 0⟩ ∧
    driftingNone.TimeStepUpdate 1 ≠ driftingNone ∧
    Sfx.timeStepPool 1 (fun _ => driftingNone) ⟨0, by decide⟩ = driftingNone ∧
    Sfx.timeStepPool 1 (fun _ => driftingNone) ⟨0, by decide⟩ ≠
      driftingNone.TimeStepUpdate 1 := by
  have hage : (driftingNone.TimeStepUpdate 1).m_age = 1 := by
    rw [TimeStepUpdate_age]
    norm_num [driftingNone]
  have hpos : (driftingNone.TimeStepUpdate 1).m_pos = ⟨1, 0, 0⟩ := by
    rw [TimeStepUpdate_pos, vector3d_add_def]
    norm_num [driftingNone, vector3d.scale]
  have hne : driftingNone.TimeStepUpdate 1 ≠ driftingNone := by
    intro h
    have h2 := congrArg Sfx.m_age h
    rw [hage] at h2
    norm_num [driftingNone] at h2
  have hpool : Sfx.timeStepPool 1 (fun _ => driftingNone) ⟨0, by decide⟩ = driftingNone := by
    rw [timeStepPool_apply]
    simp [driftingNone]
  refine ⟨rfl, rfl, hage, rfl, hpos, hne, hpool, ?_⟩
  rw [hpool]
  exact fun h => hne h.symm

/-- C12 (amended): the per-tick update is applied to the active slots only. The
loop of `TimeStepAll` skips every slot whose type is `TYPE_NONE`, so such a slot
is unchanged in the pool after the call; `TimeStepUpdate` itself, on a record of
type `TYPE_NONE`, leaves type, velocity and speed as they were, adds the time
step to the age and velocity times the time step to the position. -/
theorem C12_time_step_all_skips_none_slots (timeStep : ℚ) (f : Frame) (sfx : Pool)
    (hf : f.m_sfx = some sfx) :
    (∃ sfx' : Pool, (Sfx.TimeStepAll timeStep f).m_sfx = some sfx' ∧
      ∀ i, (sfx i).m_type = TYPE_NONE → sfx' i = sfx i) ∧
    (∀ s : Sfx, s.m_type = TYPE_NONE →
      (s.TimeStepUpdate timeStep).m_type = TYPE_NONE ∧
      (s.TimeStepUpdate timeStep).m_vel = s.m_vel ∧
      (s.TimeStepUpdate timeStep).m_speed = s.m_speed ∧
      (s.TimeStepUpdate timeStep).m_age = s.m_age + timeStep ∧
      (s.TimeStepUpdate timeStep).m_pos = s.m_pos + vector3d.scale timeStep s.m_vel) := by
  constructor
  · refine ⟨Sfx.timeStepPool timeStep sfx, ?_, ?_⟩
    · rw [TimeStepAll_m_sfx, hf]
      rfl
    · intro i hi
      rw [timeStepPool_apply, if_neg (by simpa using hi)]
  · intro s hs
    rw [TimeStepUpdate_none s timeStep hs]
    exact ⟨hs, rfl, rfl, rfl, rfl⟩

/-- C12 witness: a frame whose pool holds the record `driftingNone` in every slot. -/
theorem C12_witness_pool_of_none :
    (Frame.mk (some fun _ => driftingNone) []).m_sfx = some (fun _ => driftingNone) ∧
    ∃ sfx' : Pool,
      (Sfx.TimeStepAll 1 (Frame.mk (some fun _ => driftingNone) [])).m_sfx = some sfx' ∧
      ∀ i, (driftingNone).m_type = TYPE_NONE → sfx' i = driftingNone :=
  ⟨rfl, (C12_time_step_all_skips_none_slots 1 (Frame.mk (some fun _ => driftingNone) [])
    (fun _ => driftingNone) rfl).1⟩


/-! ## Render recipes -/

theorem Render_damage (s : Sfx) (env : RenderEnv) (ft : matrix4x4d)
    (h : s.m_type = TYPE_DAMAGE) :
    (s.Render env ft).2.damageParticle = ⟨255, 255, 0, (1 - s.m_age / 2) * 255⟩ ∧
    (s.Render env ft).2.calls =
      env.calls ++ [RenderCall.SetTransform (DrawTransform.Translation (ft s.m_pos)),
        RenderCall.DrawPointSprites 1 (ft s.m_pos) BlendState.additiveAlphaState
          ⟨255, 255, 0, (1 - s.m_age / 2) * 255⟩ 20] := by
  simp only [Sfx.Render, h, RenderEnv.call, List.append_assoc, List.singleton_append]
  norm_num

theorem Render_smoke_alpha (s : Sfx) (env : RenderEnv) (ft : matrix4x4d)
    (h : s.m_type = TYPE_SMOKE) :
    smokeAlpha s env ft =
      if s.m_age < 0.5 then (s.m_age * 0.5 - s.m_age / 2.0) * 255
      else Clamp (0.5 * 0.5 - s.m_age / 16.0) 0 1 * 255 := by
  simp only [smokeAlpha, Sfx.Render, h, RenderEnv.call, RenderEnv.Double]
  split_ifs <;> norm_num

theorem Render_smoke_calls (s : Sfx) (env : RenderEnv) (ft : matrix4x4d)
    (h : s.m_type = TYPE_SMOKE) :
    (s.Render env ft).2.calls =
      env.calls ++ [RenderCall.SetTransform (DrawTransform.Translation (ft s.m_pos)),
        RenderCall.DrawPointSprites 1 (ft s.m_pos) BlendState.alphaState
          (s.Render env ft).2.smokeParticle (s.m_speed * s.m_age)] := by
  simp only [Sfx.Render, h, RenderEnv.call, RenderEnv.Double, List.append_assoc,
    List.singleton_append]
  split_ifs <;> rfl

/-- C13 (the code at the failing input): for the Smoke effects of age 0.1 and of age
0.2, both below 0.5, `Render` computes the alpha 0, so the alpha at age 0.2 is
not greater than the alpha at age 0.1; at age 0.5 it computes 255 * 0.21875. -/
theorem C13_smoke_alpha_flat_at_start :
    smokeAlpha (smokeAged 0.1) blankEnv (fun p => p) = 0 ∧
    smokeAlpha (smokeAged 0.2) blankEnv (fun p => p) = 0 ∧
    ¬ (smokeAlpha (smokeAged 0.2) blankEnv (fun p => p) >
        smokeAlpha (smokeAged 0.1) blankEnv (fun p => p)) ∧
    smokeAlpha (smokeAged 0.5) blankEnv (fun p => p) = 255 * 0.21875 := by
  have h1 : smokeAlpha (smokeAged 0.1) blankEnv (fun p => p) = 0 := by
    rw [Render_smoke_alpha _ _ _ rfl]
    norm_num [smokeAged]
  have h2 : smokeAlpha (smokeAged 0.2) blankEnv (fun p => p) = 0 := by
    rw [Render_smoke_alpha _ _ _ rfl]
    norm_num [smokeAged]
  refine ⟨h1, h2, ?_, ?_⟩
  · rw [h1, h2]
    norm_num
  · rw [Render_smoke_alpha _ _ _ rfl]
    norm_num [smokeAged, Clamp]

/-- C20: for a Smoke effect the alpha that `Render` computes is exactly 0 for every
age in `[0, 0.5)`, where the expression `age * 0.5 - age / 2.0` cancels, and for
every age from 4.0 on, where the clamp of `0.25 - age / 16.0` is 0; for an age
in `[0.5, 4.0)` it is `255 * (0.25 - age / 16.0)`, which is not 0 and at most
`255 * 0.21875`. So, for a non-negative age, the alpha is non-zero only for ages
in `[0.5, 4.0)`. The sprite is drawn with that colour. -/
theorem C20_smoke_alpha_zero_outside_window (s : Sfx) (env : RenderEnv) (ft : matrix4x4d)
    (h : s.m_type = TYPE_SMOKE) :
    (0 ≤ s.m_age → s.m_age < 0.5 → smokeAlpha s env ft = 0) ∧
    (4.0 ≤ s.m_age → smokeAlpha s env ft = 0) ∧
    (0.5 ≤ s.m_age → s.m_age < 4.0 →
      smokeAlpha s env ft = 255 * (0.25 - s.m_age / 16.0) ∧
      smokeAlpha s env ft ≠ 0 ∧ smokeAlpha s env ft ≤ 255 * 0.21875) ∧
    (0 ≤ s.m_age → smokeAlpha s env ft ≠ 0 → 0.5 ≤ s.m_age ∧ s.m_age < 4.0) ∧
    (s.Render env ft).2.calls =
      env.calls ++ [RenderCall.SetTransform (DrawTransform.Translation (ft s.m_pos)),
        RenderCall.DrawPointSprites 1 (ft s.m_pos) BlendState.alphaState
          (s.Render env ft).2.smokeParticle (s.m_speed * s.m_age)] := by
  have hlow : s.m_age < 0.5 → smokeAlpha s env ft = 0 := by
    intro hlt
    rw [Render_smoke_alpha s env ft h, if_pos hlt]
    ring
  have hhigh : 4.0 ≤ s.m_age → smokeAlpha s env ft = 0 := by
    intro hge
    have hnot : ¬ s.m_age < 0.5 := by
      intro hlt
      norm_num at hge hlt
      linarith
    rw [Render_smoke_alpha s env ft h, if_neg hnot]
    have h1 : ¬ (0.5 * 0.5 - s.m_age / 16.0 > 1) := by
      norm_num at hge ⊢
      linarith
    unfold Clamp
    rw [if_neg h1]
    by_cases h2 : 0.5 * 0.5 - s.m_age / 16.0 < 0
    · rw [if_pos h2]
      norm_num
    · rw [if_neg h2]
      norm_num at hge h2 ⊢
      linarith
  have hmid : 0.5 ≤ s.m_age → s.m_age < 4.0 →
      smokeAlpha s env ft = 255 * (0.25 - s.m_age / 16.0) := by
    intro hge hlt
    have hnot : ¬ s.m_age < 0.5 := not_lt.mpr hge
    rw [Render_smoke_alpha s env ft h, if_neg hnot]
    have h1 : ¬ (0.5 * 0.5 - s.m_age / 16.0 > 1) := by
      norm_num at hge ⊢
      linarith
    have h2 : ¬ (0.5 * 0.5 - s.m_age / 16.0 < 0) := by
      norm_num at hlt ⊢
      linarith
    unfold Clamp
    rw [if_neg h1, if_neg h2]
    norm_num
    ring
  refine ⟨fun _ hlt => hlow hlt, hhigh, ?_, ?_, Render_smoke_calls s env ft h⟩
  · intro hge hlt
    refine ⟨hmid hge hlt, ?_, ?_⟩
    · rw [hmid hge hlt]
      norm_num at hlt ⊢
      linarith
    · rw [hmid hge hlt]
      norm_num at hge ⊢
      linarith
  · intro _ hne
    constructor
    · by_contra hcon
      exact hne (hlow (not_le.mp hcon))
    · by_contra hcon
      exact hne (hhigh (not_lt.mp hcon))

/-- C20 witness: a Smoke effect of age 1 is drawn with alpha 255 * 0.1875. -/
theorem C20_witness_age_one :
    (smokeAged 1).m_type = TYPE_SMOKE ∧ (0.5 : ℚ) ≤ (smokeAged 1).m_age ∧
    (smokeAged 1).m_age < 4.0 ∧
    smokeAlpha (smokeAged 1) blankEnv (fun p => p) = 255 * (0.25 - (smokeAged 1).m_age / 16.0) :=
  have hge : (0.5 : ℚ) ≤ (smokeAged 1).m_age := by norm_num [smokeAged]
  have hlt : (smokeAged 1).m_age < 4.0 := by norm_num [smokeAged]
  ⟨rfl, hge, hlt,
    ((C20_smoke_alpha_zero_outside_window (smokeAged 1) blankEnv (fun p => p) rfl).2.2.1
      hge hlt).1⟩

/-! ## Active count under creation and ticking -/

theorem activeSlots_length_eq_countP (sfx : Pool) :
    (activeSlots sfx).length =
      (List.finRange MAX_SFX_PER_FRAME).countP fun j => decide ((sfx j).m_type ≠ TYPE_NONE) := by
  rw [activeSlots_eq_map, List.length_map, List.countP_eq_length_filter]

theorem countP_set_one {α : Type} [DecidableEq α] (p p' : α → Bool) (i : α)
    (hi : p i = false) (hi' : p' i = true) (hother : ∀ j, j ≠ i → p' j = p j)
    (l : List α) (hl : l.Nodup) :
    l.countP p' = l.countP p + if i ∈ l then 1 else 0 := by
  induction l with
  | nil => simp
  | cons x xs ih =>
    have hx : x ∉ xs := (List.nodup_cons.mp hl).1
    have ih2 := ih (List.nodup_cons.mp hl).2
    by_cases hxi : x = i
    · subst hxi
      simp only [List.countP_cons, hi, hi', List.mem_cons, true_or, if_true] at ih2 ⊢
      simp only [hx, if_false] at ih2
      simp [ih2]
    · have hne : i ≠ x := fun h => hxi h.symm
      simp only [List.countP_cons, hother x hxi, List.mem_cons, hne, false_or]
      rw [ih2]
      omega

theorem activeSlots_length_update (sfx : Pool) (i : Fin MAX_SFX_PER_FRAME) (e : Sfx)
    (hi : (sfx i).m_type = TYPE_NONE) (he : e.m_type ≠ TYPE_NONE) :
    (activeSlots (Function.update sfx i e)).length = (activeSlots sfx).length + 1 := by
  rw [activeSlots_length_eq_countP, activeSlots_length_eq_countP,
    countP_set_one (fun j => decide ((sfx j).m_type ≠ TYPE_NONE))
      (fun j => decide ((Function.update sfx i e j).m_type ≠ TYPE_NONE)) i
      (by simp [hi]) (by simp [he])
      (fun j hj => by simp [Function.update_noteq hj])
      _ (List.nodup_finRange _)]
  simp [List.mem_finRange]

theorem activeSlots_newArray (raw : Pool) : activeSlots (Sfx.newArray raw) = [] := by
  rw [activeSlots_eq_map, List.map_eq_nil_iff, List.filter_eq_nil_iff]
  intro j _
  simp [Sfx.newArray, Sfx.construct]

theorem frameActive_length_ensuredPool (raw : Pool) (f : Frame) :
    (frameActive f).length = (activeSlots (ensuredPool raw f)).length := by
  cases hf : f.m_sfx with
  | none => simp only [frameActive, ensuredPool, hf, activeSlots_newArray]
  | some sfx => simp only [frameActive, ensuredPool, hf]

theorem AllocSfxInFrame_lowest (raw : Pool) (f : Frame) (i : Fin MAX_SFX_PER_FRAME)
    (h : (Sfx.AllocSfxInFrame raw f).2 = some i) :
    (ensuredPool raw f i).m_type = TYPE_NONE ∧
      ∀ j, j < i → (ensuredPool raw f j).m_type ≠ TYPE_NONE := by
  rw [AllocSfxInFrame_snd, find_finRange_some_iff] at h
  simpa using h

theorem activeSlots_length_timeStepPool (timeStep : ℚ) (sfx : Pool) :
    (activeSlots (Sfx.timeStepPool timeStep sfx)).length ≤ (activeSlots sfx).length := by
  rw [activeSlots_length_eq_countP, activeSlots_length_eq_countP]
  apply List.countP_mono_left
  intro j _ hj
  simp only [decide_eq_true_eq] at hj ⊢
  intro hnone
  apply hj
  rw [timeStepPool_apply, if_neg (by simpa using hnone)]
  exact hnone

/-- C16: when the pool of the frame has a free slot (a frame without a pool gets a
new one, whose slots are all free) and the type `t` is not `TYPE_NONE`, `Add` and
`AddThrustSmoke` each return the frame with the same children and a pool that
differs from the pool before in exactly one slot: the slot `i` that the
allocation returns, which was free and has the lowest index among the free
slots; every other slot is as it was, and the active count of the frame is
larger by exactly 1. -/
theorem C16_creation_changes_one_slot (raw : Pool) (f : Frame) (b : Body) (t : TYPE)
    (r1 r2 r3 speed : ℚ) (adjustpos : vector3d)
    (hfree : ∃ j, (ensuredPool raw f j).m_type = TYPE_NONE) (ht : t ≠ TYPE_NONE) :
    ∃ (i : Fin MAX_SFX_PER_FRAME) (q q' : Pool),
      (Sfx.AllocSfxInFrame raw f).2 = some i ∧
      (ensuredPool raw f i).m_type = TYPE_NONE ∧
      (∀ j, j < i → (ensuredPool raw f j).m_type ≠ TYPE_NONE) ∧
      Sfx.Add raw f b t r1 r2 r3 = Frame.mk (some q) f.GetChildren ∧
      Sfx.AddThrustSmoke raw f b t speed adjustpos = Frame.mk (some q') f.GetChildren ∧
      (∀ j, j ≠ i → q j = ensuredPool raw f j ∧ q' j = ensuredPool raw f j) ∧
      (q i).m_type = t ∧ (q' i).m_type = t ∧
      q i ≠ ensuredPool raw f i ∧ q' i ≠ ensuredPool raw f i ∧
      (frameActive (Sfx.Add raw f b t r1 r2 r3)).length = (frameActive f).length + 1 ∧
      (frameActive (Sfx.AddThrustSmoke raw f b t speed adjustpos)).length =
        (frameActive f).length + 1 := by
  obtain ⟨i, halloc, hi⟩ := AllocSfxInFrame_of_free raw f hfree
  have hlow := (AllocSfxInFrame_lowest raw f i halloc).2
  rw [Add_of_alloc raw f b t r1 r2 r3 i halloc,
    AddThrustSmoke_of_alloc raw f b t speed adjustpos i halloc]
  refine ⟨i, _, _, halloc, hi, hlow, rfl, rfl, ?_, ?_, ?_, ?_, ?_, ?_, ?_⟩
  · intro j hj
    exact ⟨Function.update_noteq hj _ _, Function.update_noteq hj _ _⟩
  · simp
  · simp
  · intro h
    have h2 := congrArg Sfx.m_type h
    rw [hi] at h2
    simp only [Function.update_same] at h2
    exact ht h2
  · intro h
    have h2 := congrArg Sfx.m_type h
    rw [hi] at h2
    simp only [Function.update_same] at h2
    exact ht h2
  · rw [frameActive_length_ensuredPool raw f]
    exact activeSlots_length_update _ i _ hi ht
  · rw [frameActive_length_ensuredPool raw f]
    exact activeSlots_length_update _ i _ hi ht

/-- C16 witness: the first Damage effect of a frame without a pool. -/
theorem C16_witness_first_effect :
    (∃ j, (ensuredPool rawSpeedOne emptyFrame j).m_type = TYPE_NONE) ∧
    TYPE_DAMAGE ≠ TYPE_NONE ∧
    (frameActive (Sfx.Add rawSpeedOne emptyFrame bodyAtRest TYPE_DAMAGE 0 0 0)).length =
      (frameActive emptyFrame).length + 1 :=
  have h := C16_creation_changes_one_slot rawSpeedOne emptyFrame bodyAtRest TYPE_DAMAGE
    0 0 0 0 ⟨0, 0, 0⟩ ⟨⟨0, by decide⟩, rfl⟩ (by decide)
  ⟨⟨⟨0, by decide⟩, rfl⟩, by decide,
    h.elim fun _ hi => hi.elim fun _ hq => hq.elim fun _ hq' => hq'.2.2.2.2.2.2.2.2.2.2.1⟩

/-- C17: `TYPE_NONE` is terminal under ticking. For every frame `f` of the tree
under `root` (found at `path`), after `TimeStepAll` the frame at that path has
every slot that was of type `TYPE_NONE` exactly as it was, still of type
`TYPE_NONE`, and its active count is at most the active count of `f`. -/
theorem C17_none_is_terminal (timeStep : ℚ) (root : Frame) (path : List Nat) (f : Frame)
    (hf : root.descend path = some f) :
    ∃ f', (Sfx.TimeStepAll timeStep root).descend path = some f' ∧
      (frameActive f').length ≤ (frameActive f).length ∧
      (f.m_sfx = none → f'.m_sfx = none) ∧
      ∀ sfx, f.m_sfx = some sfx →
        ∃ sfx', f'.m_sfx = some sfx' ∧
          ∀ i, (sfx i).m_type = TYPE_NONE → sfx' i = sfx i ∧ (sfx' i).m_type = TYPE_NONE := by
  refine ⟨Sfx.TimeStepAll timeStep f, ?_, ?_, ?_, ?_⟩
  · rw [TimeStepAll_descend, hf]
    rfl
  · cases hm : f.m_sfx with
    | none => simp [frameActive, TimeStepAll_m_sfx, hm]
    | some sfx =>
      simp only [frameActive, TimeStepAll_m_sfx, hm, Option.map_some']
      exact activeSlots_length_timeStepPool timeStep sfx
  · intro h
    rw [TimeStepAll_m_sfx, h]
    rfl
  · intro sfx h
    refine ⟨Sfx.timeStepPool timeStep sfx, ?_, ?_⟩
    · rw [TimeStepAll_m_sfx, h]
      rfl
    · intro i hi
      have heq : Sfx.timeStepPool timeStep sfx i = sfx i := by
        rw [timeStepPool_apply, if_neg (by simpa using hi)]
      exact ⟨heq, by rw [heq, hi]⟩

theorem descend_only_child (m : Option Pool) (kid : Frame) :
    (Frame.mk m [kid]).descend [0] = some kid := rfl

/-- C17 witness: the frame of scenario C under a root frame, ticked by 1. -/
theorem C17_witness_child_frame :
    (Frame.mk none [smokeSmokeDamage]).descend [0] = some smokeSmokeDamage ∧
    ∃ f', (Sfx.TimeStepAll 1 (Frame.mk none [smokeSmokeDamage])).descend [0] = some f' ∧
      (frameActive f').length ≤ (frameActive smokeSmokeDamage).length :=
  have h := C17_none_is_terminal 1 (Frame.mk none [smokeSmokeDamage]) [0] smokeSmokeDamage
    (descend_only_child none smokeSmokeDamage)
  ⟨descend_only_child none smokeSmokeDamage, h.elim fun f' hf' => ⟨f', hf'.1, hf'.2.1⟩⟩

/-! ## Persistence: re-serialization -/

theorem recordOf_withRecord (s r : Sfx) : recordOf (withRecord s r) = recordOf r := rfl

theorem activeSlots_loadedInto (raw : Pool) (rs : List Sfx)
    (hact : ∀ s ∈ rs, s.m_type ≠ TYPE_NONE) (hlen : rs.length ≤ MAX_SFX_PER_FRAME) :
    activeSlots (loadedInto (Sfx.newArray raw) 0 rs) =
      (List.finRange rs.length).map fun j =>
        withRecord (Sfx.newArray raw (Fin.castLE hlen j)) (rs.get j) := by
  have hleading : ∀ j : Fin MAX_SFX_PER_FRAME,
      (loadedInto (Sfx.newArray raw) 0 rs j).m_type ≠ TYPE_NONE ↔ j.val < rs.length := by
    intro j
    by_cases hj : j.val < rs.length
    · rw [loadedInto_zero_lt _ _ _ hj]
      have := hact _ (List.get_mem rs j.val hj)
      simp only [List.get_eq_getElem] at this
      simp [withRecord, hj, this]
    · rw [loadedInto_zero_ge _ _ _ (by omega)]
      simp [Sfx.newArray, Sfx.construct, hj]
  rw [activeSlots_of_leading _ rs.length hlen hleading]
  apply List.map_congr_left
  intro j _
  exact loadedInto_zero_lt _ _ _ j.isLt

theorem flatMap_recordOf_loadedInto (raw : Pool) (rs : List Sfx)
    (hact : ∀ s ∈ rs, s.m_type ≠ TYPE_NONE) (hlen : rs.length ≤ MAX_SFX_PER_FRAME) :
    (activeSlots (loadedInto (Sfx.newArray raw) 0 rs)).flatMap recordOf =
      rs.flatMap recordOf := by
  rw [activeSlots_loadedInto raw rs hact hlen, List.flatMap_map]
  simp only [recordOf_withRecord]
  have h : (List.finRange rs.length).flatMap (fun j => recordOf (rs.get j)) =
      ((List.finRange rs.length).map rs.get).flatMap recordOf := by
    rw [List.flatMap_map]
  rw [h, List.finRange_map_get]

/-- C19: re-serialization is stable. The stream that `Serialize` writes for a frame
`f` is read by `Unserialize` into a fresh frame `g` (one without a pool)
completely, and `Serialize` on the frame so obtained writes the same items as
`Serialize` on `f`, after whatever was written before. -/
theorem C19_reserialization_is_stable (raw : Pool) (wr : Writer) (f g : Frame)
    (hg : g.m_sfx = none) :
    ∃ g', Sfx.Unserialize raw (Sfx.Serialize [] f) g = some (g', []) ∧
      Sfx.Serialize wr g' = Sfx.Serialize wr f ∧
      Sfx.Serialize [] g' = Sfx.Serialize [] f := by
  by_cases hne : frameActive f = []
  · refine ⟨g, ?_, ?_, ?_⟩
    · rw [Serialize_eq, hne]
      simp [Sfx.Unserialize, Reader.Int32]
    · rw [Serialize_eq, Serialize_eq, hne]
      simp [frameActive, hg]
    · rw [Serialize_eq, Serialize_eq, hne]
      simp [frameActive, hg]
  · have hle := frameActive_length_le f
    have hact := frameActive_active f
    have hrec := flatMap_recordOf_loadedInto raw (frameActive f) hact hle
    have hlen := activeSlots_loadedInto_length raw (frameActive f) hact hle
    have hsame : ∀ w : Writer,
        Sfx.Serialize w (g.setSfx (loadedInto (Sfx.newArray raw) 0 (frameActive f))) =
          Sfx.Serialize w f := by
      intro w
      rw [Serialize_eq, Serialize_eq]
      have hfa : frameActive (g.setSfx (loadedInto (Sfx.newArray raw) 0 (frameActive f))) =
          activeSlots (loadedInto (Sfx.newArray raw) 0 (frameActive f)) := rfl
      rw [hfa, hrec, hlen]
    refine ⟨g.setSfx (loadedInto (Sfx.newArray raw) 0 (frameActive f)), ?_, hsame wr, hsame []⟩
    rw [Serialize_eq, List.nil_append]
    have h := Unserialize_records raw g (frameActive f) [] hne hle
    rw [List.append_nil] at h
    exact h

/-- C19 witness: the frame of scenario C, reloaded into a frame without a pool. -/
theorem C19_witness_scenario_reload :
    emptyFrame.m_sfx = none ∧
    ∃ g', Sfx.Unserialize rawSpeedOne (Sfx.Serialize [] smokeSmokeDamage) emptyFrame =
        some (g', []) ∧
      Sfx.Serialize [] g' = Sfx.Serialize [] smokeSmokeDamage :=
  have h := C19_reserialization_is_stable rawSpeedOne [] smokeSmokeDamage emptyFrame rfl
  ⟨rfl, h.elim fun g' hg' => ⟨g', hg'.1, hg'.2.2⟩⟩


/-! ## Rendering: once per frame and slot, in traversal order -/

theorem renderSlot_eq (ftran : matrix4x4d) (st : Pool × RenderEnv)
    (i : Fin MAX_SFX_PER_FRAME) :
    Sfx.renderSlot ftran st i =
      (st.1, if (st.1 i).m_type ≠ TYPE_NONE then ((st.1 i).Render st.2 ftran).2 else st.2) := by
  apply Prod.ext
  · exact renderSlot_fst ftran st i
  · unfold Sfx.renderSlot
    by_cases h : (st.1 i).m_type ≠ TYPE_NONE
    · rw [if_pos h, if_pos h]
    · rw [if_neg h, if_neg h]

theorem foldl_renderSlot_snd (ftran : matrix4x4d) (l : List (Fin MAX_SFX_PER_FRAME))
    (sfx : Pool) (env : RenderEnv) :
    (l.foldl (Sfx.renderSlot ftran) (sfx, env)).2 =
      ((l.filter fun i => decide ((sfx i).m_type ≠ TYPE_NONE)).map sfx).foldl
        (fun env s => (s.Render env ftran).2) env := by
  induction l generalizing env with
  | nil => rfl
  | cons x xs ih =>
    rw [List.foldl_cons, renderSlot_eq]
    by_cases h : (sfx x).m_type ≠ TYPE_NONE
    · rw [ih, if_pos h, List.filter_cons_of_pos (by simpa using h), List.map_cons,
        List.foldl_cons]
    · rw [ih, if_neg h, List.filter_cons_of_neg (by simpa using h)]

theorem renderPool_snd (ftran : matrix4x4d) (sfx : Pool) (env : RenderEnv) :
    (Sfx.renderPool ftran sfx env).2 =
      (activeSlots sfx).foldl (fun env s => (s.Render env ftran).2) env := by
  rw [Sfx.renderPool, foldl_renderSlot_snd, activeSlots_eq_map]

theorem TimeStepAllCalls_mk (m : Option Pool) (kids : List Frame) :
    Sfx.TimeStepAllCalls (Frame.mk m kids) = Frame.mk m kids :: Sfx.TimeStepAllKidsCalls kids :=
  rfl

theorem TimeStepAllKidsCalls_cons (kid : Frame) (kids : List Frame) :
    Sfx.TimeStepAllKidsCalls (kid :: kids) =
      Sfx.TimeStepAllCalls kid ++ Sfx.TimeStepAllKidsCalls kids := rfl

mutual
theorem RenderAll_snd (G : Frame → Frame → matrix4x4d) (camFrame : Frame) :
    ∀ (f : Frame) (env : RenderEnv),
      (Sfx.RenderAll G camFrame f env).2 =
        (Sfx.TimeStepAllCalls f).foldl (renderFrameOnce G camFrame) env
  | Frame.mk (some sfx) kids, env => by
    rw [RenderAll_some, TimeStepAllCalls_mk, List.foldl_cons,
      RenderAllKids_snd G camFrame kids, renderPool_snd]
    rfl
  | Frame.mk none kids, env => by
    rw [RenderAll_none, TimeStepAllCalls_mk, List.foldl_cons,
      RenderAllKids_snd G camFrame kids]
    rfl
theorem RenderAllKids_snd (G : Frame → Frame → matrix4x4d) (camFrame : Frame) :
    ∀ (kids : List Frame) (env : RenderEnv),
      (Sfx.RenderAllKids G camFrame kids env).2 =
        (Sfx.TimeStepAllKidsCalls kids).foldl (renderFrameOnce G camFrame) env
  | [], _ => rfl
  | kid :: kids, env => by
    rw [RenderAllKids_cons, TimeStepAllKidsCalls_cons, List.foldl_append,
      RenderAllKids_snd G camFrame kids, RenderAll_snd G camFrame kid]
end

theorem resolvedFrames_append (a b : List RenderCall) :
    resolvedFrames (a ++ b) = resolvedFrames a ++ resolvedFrames b := by
  simp [resolvedFrames, List.filterMap_append]

theorem resolvedFrames_Render (s : Sfx) (env : RenderEnv) (ft : matrix4x4d) :
    resolvedFrames (s.Render env ft).2.calls = resolvedFrames env.calls := by
  cases h : s.m_type
  · simp only [Sfx.Render, h]
  · simp only [Sfx.Render, h, RenderEnv.call, resolvedFrames_append]
    simp [resolvedFrames]
  · simp only [Sfx.Render, h, RenderEnv.call, resolvedFrames_append]
    simp [resolvedFrames]
  · rw [Render_smoke_calls s env ft h, resolvedFrames_append]
    simp [resolvedFrames]

theorem resolvedFrames_foldl_Render (ft : matrix4x4d) (l : List Sfx) (env : RenderEnv) :
    resolvedFrames (l.foldl (fun env s => (s.Render env ft).2) env).calls =
      resolvedFrames env.calls := by
  induction l generalizing env with
  | nil => rfl
  | cons x xs ih => rw [List.foldl_cons, ih, resolvedFrames_Render]

theorem resolvedFrames_renderFrameOnce (G : Frame → Frame → matrix4x4d) (camFrame : Frame)
    (env : RenderEnv) (f : Frame) :
    resolvedFrames (renderFrameOnce G camFrame env f).calls =
      resolvedFrames env.calls ++ [f].filter fun g => g.m_sfx.isSome := by
  cases hf : f.m_sfx with
  | none => simp [renderFrameOnce, hf]
  | some sfx =>
    simp only [renderFrameOnce, hf, resolvedFrames_foldl_Render, RenderEnv.call,
      resolvedFrames_append]
    simp [resolvedFrames, hf]

theorem resolvedFrames_foldl_renderFrameOnce (G : Frame → Frame → matrix4x4d)
    (camFrame : Frame) (fs : List Frame) (env : RenderEnv) :
    resolvedFrames (fs.foldl (renderFrameOnce G camFrame) env).calls =
      resolvedFrames env.calls ++ fs.filter fun g => g.m_sfx.isSome := by
  induction fs generalizing env with
  | nil => simp
  | cons x xs ih =>
    rw [List.foldl_cons, ih, resolvedFrames_renderFrameOnce, List.append_assoc,
      ← List.filter_append]
    rfl

mutual
theorem TimeStepAllCalls_TimeStepAll (timeStep : ℚ) :
    ∀ f : Frame, Sfx.TimeStepAllCalls (Sfx.TimeStepAll timeStep f) =
      (Sfx.TimeStepAllCalls f).map (Sfx.TimeStepAll timeStep)
  | Frame.mk m kids => by
    have h : Sfx.TimeStepAll timeStep (Frame.mk m kids) =
        Frame.mk (m.map (Sfx.timeStepPool timeStep)) (Sfx.TimeStepAllKids timeStep kids) := by
      rw [Sfx.TimeStepAll]
    rw [TimeStepAllCalls_mk, List.map_cons, ← TimeStepAllKidsCalls_TimeStepAllKids timeStep kids,
      h, TimeStepAllCalls_mk]
theorem TimeStepAllKidsCalls_TimeStepAllKids (timeStep : ℚ) :
    ∀ kids : List Frame, Sfx.TimeStepAllKidsCalls (Sfx.TimeStepAllKids timeStep kids) =
      (Sfx.TimeStepAllKidsCalls kids).map (Sfx.TimeStepAll timeStep)
  | [] => rfl
  | kid :: kids => by
    have h : Sfx.TimeStepAllKids timeStep (kid :: kids) =
        Sfx.TimeStepAll timeStep kid :: Sfx.TimeStepAllKids timeStep kids := by
      rw [Sfx.TimeStepAllKids]
    rw [h, TimeStepAllKidsCalls_cons, TimeStepAllKidsCalls_cons, List.map_append,
      TimeStepAllCalls_TimeStepAll timeStep kid,
      TimeStepAllKidsCalls_TimeStepAllKids timeStep kids]
end

/-- C15: one call of `RenderAll` on the root of a finite frame tree leaves the
environment that is obtained by going through the frames in the order in which
`TimeStepAll` is called on them and doing, for each frame, nothing when it has
no pool, and otherwise one resolution of its frame-to-camera transform followed
by one `Render` with that transform for each active slot, in index order (none
for a slot of type `TYPE_NONE`). The frames whose transform is resolved are
exactly the frames with a pool, once each, in that order. The calls of
`TimeStepAll` reach the same frames in the same order, each frame being ticked
by its call. -/
theorem C15_render_all_once_per_frame_and_slot (G : Frame → Frame → matrix4x4d)
    (camFrame root : Frame) (env : RenderEnv) (timeStep : ℚ) :
    (Sfx.RenderAll G camFrame root env).2 =
      (Sfx.TimeStepAllCalls root).foldl (renderFrameOnce G camFrame) env ∧
    resolvedFrames (Sfx.RenderAll G camFrame root env).2.calls =
      resolvedFrames env.calls ++
        (Sfx.TimeStepAllCalls root).filter (fun f => f.m_sfx.isSome) ∧
    (∀ (f : Frame) (env' : RenderEnv), f.m_sfx = none →
      renderFrameOnce G camFrame env' f = env') ∧
    (∀ (f : Frame) (sfx : Pool) (env' : RenderEnv), f.m_sfx = some sfx →
      renderFrameOnce G camFrame env' f =
        ((List.ofFn sfx).filter fun s => s.m_type ≠ TYPE_NONE).foldl
          (fun e s => (s.Render e (G f camFrame)).2)
          (env'.call (RenderCall.GetFrameTransform f))) ∧
    Sfx.TimeStepAllCalls (Sfx.TimeStepAll timeStep root) =
      (Sfx.TimeStepAllCalls root).map (Sfx.TimeStepAll timeStep) := by
  refine ⟨RenderAll_snd G camFrame root env, ?_, ?_, ?_,
    TimeStepAllCalls_TimeStepAll timeStep root⟩
  · rw [RenderAll_snd, resolvedFrames_foldl_renderFrameOnce]
  · intro f env' h
    simp only [renderFrameOnce, h]
  · intro f sfx env' h
    simp only [renderFrameOnce, h, activeSlots, slots]

/-- C15 witness (scenario D): in the 7-frame tree the root and the four grandchildren
own a pool; their transforms are resolved once each, the root first. -/
theorem C15_witness_seven_frames :
    damageLeaf.m_sfx = some fullDamagePool ∧
    twoLeaves.m_sfx = none ∧
    resolvedFrames (Sfx.RenderAll (fun _ _ p => p) emptyFrame sevenFrames blankEnv).2.calls =
      [sevenFrames, damageLeaf, damageLeaf, damageLeaf, damageLeaf] ∧
    renderFrameOnce (fun _ _ p => p) emptyFrame blankEnv twoLeaves = blankEnv :=
  have h := C15_render_all_once_per_frame_and_slot (fun _ _ p => p) emptyFrame sevenFrames
    blankEnv 1
  ⟨rfl, rfl, h.2.1.trans rfl, h.2.2.1 twoLeaves blankEnv rfl⟩


/-! ## Reachable states -/

theorem GetChildren_mk (m : Option Pool) (kids : List Frame) :
    (Frame.mk m kids).GetChildren = kids := rfl

theorem m_sfx_mk (m : Option Pool) (kids : List Frame) : (Frame.mk m kids).m_sfx = m := rfl

theorem descend_modifyAt (op : Frame → Frame) (hop : ∀ x, (op x).GetChildren = x.GetChildren) :
    ∀ (p q : List Nat) (f g' : Frame), (f.modifyAt p op).descend q = some g' →
      ∃ g, f.descend q = some g ∧ (g'.m_sfx = g.m_sfx ∨ g'.m_sfx = (op g).m_sfx) := by
  intro p
  induction p with
  | nil =>
    intro q f g' h
    cases q with
    | nil =>
      simp only [Frame.modifyAt, Frame.descend, Option.some.injEq] at h
      exact ⟨f, rfl, Or.inr (by rw [h])⟩
    | cons j r =>
      simp only [Frame.modifyAt, Frame.descend, hop] at h
      exact ⟨g', by simpa only [Frame.descend] using h, Or.inl rfl⟩
  | cons k p ih =>
    intro q f g' h
    cases hk : f.GetChildren[k]? with
    | none =>
      simp only [Frame.modifyAt, hk] at h
      exact ⟨g', h, Or.inl rfl⟩
    | some kid =>
      simp only [Frame.modifyAt, hk] at h
      cases q with
      | nil =>
        simp only [Frame.descend, Option.some.injEq] at h
        exact ⟨f, rfl, Or.inl (by rw [← h]; rfl)⟩
      | cons j r =>
        simp only [Frame.descend, GetChildren_mk] at h
        by_cases hjk : k = j
        · subst hjk
          have hlt : k < f.GetChildren.length := (List.getElem?_eq_some.mp hk).1
          rw [List.getElem?_set_self hlt] at h
          obtain ⟨g, hg, hcase⟩ := ih r kid g' h
          exact ⟨g, by simpa only [Frame.descend, hk] using hg, hcase⟩
        · rw [List.getElem?_set_ne hjk] at h
          exact ⟨g', by simpa only [Frame.descend] using h, Or.inl rfl⟩

theorem specThreshold_nonneg (t : TYPE) : 0 ≤ specThreshold t := by
  cases t <;> simp [specThreshold] <;> norm_num

theorem withinLife_tickSlot (s : Sfx) (dt : ℚ) (hs : withinLife s) (hdt : 0 < dt) :
    withinLife (tickSlot s dt) := by
  unfold tickSlot
  by_cases hact : s.m_type ≠ TYPE_NONE
  · rw [if_pos hact]
    intro hact'
    rw [TimeStepUpdate_type, if_neg hact] at hact'
    by_cases hover : s.m_age + dt > specThreshold s.m_type
    · rw [if_pos hover] at hact'
      exact absurd rfl hact'
    · rw [TimeStepUpdate_age, TimeStepUpdate_type, if_neg hact, if_neg hover]
      exact ⟨by linarith [(hs hact).1], not_lt.mp hover⟩
  · rw [if_neg hact]
    exact hs

theorem Add_of_alloc_none (raw : Pool) (f : Frame) (b : Body) (t : TYPE) (r1 r2 r3 : ℚ)
    (h : (Sfx.AllocSfxInFrame raw f).2 = none) :
    Sfx.Add raw f b t r1 r2 r3 = Frame.mk (some (ensuredPool raw f)) f.GetChildren := by
  have hpair : Sfx.AllocSfxInFrame raw f = ((Sfx.AllocSfxInFrame raw f).1, none) := by
    rw [← h]
  rw [Sfx.Add, hpair]
  simp only []
  rw [AllocSfxInFrame_fst]

theorem AddThrustSmoke_of_alloc_none (raw : Pool) (f : Frame) (b : Body) (t : TYPE)
    (speed : ℚ) (adjustpos : vector3d) (h : (Sfx.AllocSfxInFrame raw f).2 = none) :
    Sfx.AddThrustSmoke raw f b t speed adjustpos =
      Frame.mk (some (ensuredPool raw f)) f.GetChildren := by
  have hpair : Sfx.AllocSfxInFrame raw f = ((Sfx.AllocSfxInFrame raw f).1, none) := by
    rw [← h]
  rw [Sfx.AddThrustSmoke, hpair]
  simp only []
  rw [AllocSfxInFrame_fst]

theorem creation_cases (raw : Pool) (f : Frame) (b : Body) (t : TYPE) (r1 r2 r3 speed : ℚ)
    (adjustpos : vector3d) :
    ∃ q q' : Pool,
      Sfx.Add raw f b t r1 r2 r3 = Frame.mk (some q) f.GetChildren ∧
      Sfx.AddThrustSmoke raw f b t speed adjustpos = Frame.mk (some q') f.GetChildren ∧
      ∀ j, (q j = ensuredPool raw f j ∨ ((q j).m_age = 0 ∧ (q j).m_type = t)) ∧
        (q' j = ensuredPool raw f j ∨ ((q' j).m_age = 0 ∧ (q' j).m_type = t)) := by
  cases h : (Sfx.AllocSfxInFrame raw f).2 with
  | none =>
    rw [Add_of_alloc_none raw f b t r1 r2 r3 h,
      AddThrustSmoke_of_alloc_none raw f b t speed adjustpos h]
    exact ⟨_, _, rfl, rfl, fun j => ⟨Or.inl rfl, Or.inl rfl⟩⟩
  | some i =>
    rw [Add_of_alloc raw f b t r1 r2 r3 i h,
      AddThrustSmoke_of_alloc raw f b t speed adjustpos i h]
    refine ⟨_, _, rfl, rfl, ?_⟩
    intro j
    by_cases hj : j = i
    · subst hj
      exact ⟨Or.inr (by simp), Or.inr (by simp)⟩
    · exact ⟨Or.inl (Function.update_noteq hj _ _), Or.inl (Function.update_noteq hj _ _)⟩

theorem withinLife_ensuredPool (raw : Pool) (f : Frame)
    (hf : ∀ sfx i, f.m_sfx = some sfx → withinLife (sfx i)) (j : Fin MAX_SFX_PER_FRAME) :
    withinLife (ensuredPool raw f j) := by
  cases hm : f.m_sfx with
  | none =>
    simp only [ensuredPool, hm]
    intro hact
    exact absurd rfl hact
  | some sfx =>
    simp only [ensuredPool, hm]
    exact hf sfx j hm

theorem withinLife_created (s : Sfx) (t : TYPE) (h : s.m_age = 0 ∧ s.m_type = t) :
    withinLife s := by
  intro _
  rw [h.1, h.2]
  exact ⟨le_refl 0, specThreshold_nonneg t⟩

theorem allWithinLife_modifyAt (root : Frame) (p : List Nat) (op : Frame → Frame)
    (hop : ∀ x, (op x).GetChildren = x.GetChildren)
    (hpres : ∀ x, (∀ sfx i, x.m_sfx = some sfx → withinLife (sfx i)) →
      ∀ sfx i, (op x).m_sfx = some sfx → withinLife (sfx i))
    (h : allWithinLife root) : allWithinLife (root.modifyAt p op) := by
  intro q g' sfx i hq hsfx
  obtain ⟨g, hg, hcase⟩ := descend_modifyAt op hop p q root g' hq
  rcases hcase with hc | hc
  · exact h q g sfx i hg (by rw [← hc, hsfx])
  · exact hpres g (fun s j hs => h q g s j hg hs) sfx i (by rw [← hc, hsfx])

theorem allWithinLife_TimeStepAll (root : Frame) (dt : ℚ) (hdt : 0 < dt)
    (h : allWithinLife root) : allWithinLife (Sfx.TimeStepAll dt root) := by
  intro q g' sfx i hq hsfx
  rw [TimeStepAll_descend] at hq
  cases hg : root.descend q with
  | none => simp [hg] at hq
  | some g =>
    simp only [hg, Option.map_some', Option.some.injEq] at hq
    subst hq
    rw [TimeStepAll_m_sfx] at hsfx
    cases hm : g.m_sfx with
    | none => simp [hm] at hsfx
    | some sfx0 =>
      simp only [hm, Option.map_some', Option.some.injEq] at hsfx
      subst hsfx
      rw [timeStepPool_eq_tickSlot]
      exact withinLife_tickSlot _ dt (h q g sfx0 i hg hm) hdt

theorem creation_keeps_children (raw : Pool) (b : Body) (t : TYPE) (r1 r2 r3 speed : ℚ)
    (adjustpos : vector3d) (x : Frame) :
    (Sfx.Add raw x b t r1 r2 r3).GetChildren = x.GetChildren ∧
    (Sfx.AddThrustSmoke raw x b t speed adjustpos).GetChildren = x.GetChildren := by
  obtain ⟨q, q', h1, h2, _⟩ := creation_cases raw x b t r1 r2 r3 speed adjustpos
  rw [h1, h2]
  exact ⟨rfl, rfl⟩

theorem creation_keeps_withinLife (raw : Pool) (b : Body) (t : TYPE) (r1 r2 r3 speed : ℚ)
    (adjustpos : vector3d) (x : Frame)
    (hx : ∀ sfx i, x.m_sfx = some sfx → withinLife (sfx i)) :
    (∀ sfx i, (Sfx.Add raw x b t r1 r2 r3).m_sfx = some sfx → withinLife (sfx i)) ∧
    (∀ sfx i, (Sfx.AddThrustSmoke raw x b t speed adjustpos).m_sfx = some sfx →
      withinLife (sfx i)) := by
  obtain ⟨q, q', h1, h2, hslots⟩ := creation_cases raw x b t r1 r2 r3 speed adjustpos
  rw [h1, h2]
  constructor
  · intro sfx i hs
    simp only [m_sfx_mk, Option.some.injEq] at hs
    subst hs
    rcases (hslots i).1 with hc | hc
    · rw [hc]
      exact withinLife_ensuredPool raw x hx i
    · exact withinLife_created _ t hc
  · intro sfx i hs
    simp only [m_sfx_mk, Option.some.injEq] at hs
    subst hs
    rcases (hslots i).2 with hc | hc
    · rw [hc]
      exact withinLife_ensuredPool raw x hx i
    · exact withinLife_created _ t hc

theorem allWithinLife_run (op : SfxOp) (root : Frame) (hpos : op.positiveStep)
    (h : allWithinLife root) : allWithinLife (op.run root) := by
  cases op with
  | Add path raw b t r1 r2 r3 =>
    exact allWithinLife_modifyAt root path _
      (fun x => (creation_keeps_children raw b t r1 r2 r3 0 ⟨0, 0, 0⟩ x).1)
      (fun x hx => (creation_keeps_withinLife raw b t r1 r2 r3 0 ⟨0, 0, 0⟩ x hx).1) h
  | AddThrustSmoke path raw b t speed adjustpos =>
    exact allWithinLife_modifyAt root path _
      (fun x => (creation_keeps_children raw b t 0 0 0 speed adjustpos x).2)
      (fun x hx => (creation_keeps_withinLife raw b t 0 0 0 speed adjustpos x hx).2) h
  | TimeStepAll timeStep => exact allWithinLife_TimeStepAll root timeStep hpos h

theorem allWithinLife_runOps (ops : List SfxOp) (root : Frame)
    (hpos : ∀ op ∈ ops, op.positiveStep) (h : allWithinLife root) :
    allWithinLife (runOps root ops) := by
  induction ops generalizing root with
  | nil => exact h
  | cons op ops ih =>
    exact ih (op.run root) (fun o ho => hpos o (List.mem_cons_of_mem _ ho))
      (allWithinLife_run op root (hpos op (List.mem_cons_self _ _)) h)

theorem allWithinLife_of_emptyPools (root : Frame) (h : emptyPools root) :
    allWithinLife root := by
  intro path f sfx i hd hm hact
  exact absurd (h path f sfx i hd hm) hact

theorem emptyPools_emptyFrame : emptyPools emptyFrame := by
  intro path f sfx i hd hm
  cases path with
  | nil =>
    simp only [Frame.descend, Option.some.injEq] at hd
    subst hd
    simp [emptyFrame, Frame.m_sfx] at hm
  | cons k r => simp [Frame.descend, emptyFrame, Frame.GetChildren] at hd

/-- C18: reachable-state invariant. Start from a frame tree in which no pool has an
active slot, and make any sequence of calls of `Add` and `AddThrustSmoke` (each
on a frame of the tree) and of `TimeStepAll` with positive time steps. Then, in
every frame of the tree, every active slot has an age between 0 and the
threshold of its type (0.5 Explosion, 2.0 Damage, 8.0 Smoke); and the alpha
`255 * (1 - age / 2.0)` that `Render` computes for any Damage effect of the tree
lies in `[0, 255]`. -/
theorem C18_active_age_within_threshold (root : Frame) (ops : List SfxOp)
    (hempty : emptyPools root) (hpos : ∀ op ∈ ops, op.positiveStep) :
    ∀ (path : List Nat) (f : Frame) (sfx : Pool) (i : Fin MAX_SFX_PER_FRAME),
      (runOps root ops).descend path = some f → f.m_sfx = some sfx →
        ((sfx i).m_type ≠ TYPE_NONE →
          0 ≤ (sfx i).m_age ∧ (sfx i).m_age ≤ specThreshold (sfx i).m_type) ∧
        ((sfx i).m_type = TYPE_DAMAGE →
          ∀ (env : RenderEnv) (ft : matrix4x4d),
            damageAlpha (sfx i) env ft = 255 * (1 - (sfx i).m_age / 2.0) ∧
            0 ≤ damageAlpha (sfx i) env ft ∧ damageAlpha (sfx i) env ft ≤ 255) := by
  intro path f sfx i hd hm
  have hlife : withinLife (sfx i) :=
    allWithinLife_runOps ops root hpos (allWithinLife_of_emptyPools root hempty) path f sfx i
      hd hm
  refine ⟨hlife, ?_⟩
  intro hdam env ft
  have hact : (sfx i).m_type ≠ TYPE_NONE := by
    rw [hdam]
    decide
  have hage := hlife hact
  rw [hdam] at hage
  have halpha : damageAlpha (sfx i) env ft = 255 * (1 - (sfx i).m_age / 2.0) := by
    rw [damageAlpha, (Render_damage (sfx i) env ft hdam).1]
    norm_num [mul_comm]
  rw [halpha]
  simp only [specThreshold] at hage
  refine ⟨rfl, ?_, ?_⟩
  · norm_num at hage ⊢
    linarith [hage.1, hage.2]
  · norm_num at hage ⊢
    linarith [hage.1, hage.2]

/-- C18 witness: a Damage effect is created in a frame without a pool, the tree is
ticked by 1 and then by 3/2 (the effect expires on the second tick). -/
theorem C18_witness_create_and_tick :
    emptyPools emptyFrame ∧
    (∀ op ∈ [SfxOp.Add [] rawSpeedOne bodyAtRest TYPE_DAMAGE 0 0 0, SfxOp.TimeStepAll 1,
      SfxOp.TimeStepAll (3 / 2)], op.positiveStep) ∧
    ∀ (path : List Nat) (f : Frame) (sfx : Pool) (i : Fin MAX_SFX_PER_FRAME),
      (runOps emptyFrame [SfxOp.Add [] rawSpeedOne bodyAtRest TYPE_DAMAGE 0 0 0,
        SfxOp.TimeStepAll 1, SfxOp.TimeStepAll (3 / 2)]).descend path = some f →
      f.m_sfx = some sfx → (sfx i).m_type ≠ TYPE_NONE →
        0 ≤ (sfx i).m_age ∧ (sfx i).m_age ≤ specThreshold (sfx i).m_type := by
  have hpos : ∀ op ∈ [SfxOp.Add [] rawSpeedOne bodyAtRest TYPE_DAMAGE 0 0 0,
      SfxOp.TimeStepAll 1, SfxOp.TimeStepAll (3 / 2)], op.positiveStep := by
    intro op hop
    simp only [List.mem_cons, List.mem_singleton, List.not_mem_nil, or_false] at hop
    rcases hop with h | h | h <;> rw [h] <;> simp only [SfxOp.positiveStep] <;> norm_num
  exact ⟨emptyPools_emptyFrame, hpos, fun path f sfx i hd hm =>
    (C18_active_age_within_threshold emptyFrame _ emptyPools_emptyFrame hpos path f sfx i
      hd hm).1⟩


/-! ## Rounding in the arithmetic of the source -/

theorem roundHalfEven_of_near (q : ℚ) (n : Int) (h : |q - n| < 1 / 2) : roundHalfEven q = n := by
  rw [abs_lt] at h
  unfold roundHalfEven
  by_cases hle : (n : ℚ) ≤ q
  · have hfloor : ⌊q⌋ = n := by
      rw [Int.floor_eq_iff]
      constructor
      · exact hle
      · linarith [h.2]
    rw [hfloor, if_pos (by linarith [h.2])]
  · have hlt : q < n := not_le.mp hle
    have hfloor : ⌊q⌋ = n - 1 := by
      rw [Int.floor_eq_iff]
      push_cast
      constructor
      · linarith [h.1]
      · linarith
    rw [hfloor]
    have h1 : ¬ (q - ((n - 1 : Int) : ℚ) < 1 / 2) := by
      push_cast
      linarith [h.1]
    have h2 : q - ((n - 1 : Int) : ℚ) > 1 / 2 := by
      push_cast
      linarith [h.1]
    rw [if_neg h1, if_pos h2]
    ring

theorem log_two_eq (x : ℚ) (e : Int) (hlo : (2 : ℚ) ^ e ≤ x) (hhi : x < (2 : ℚ) ^ (e + 1)) :
    Int.log 2 x = e := by
  have hpos : 0 < x := lt_of_lt_of_le (zpow_pos (by norm_num) e) hlo
  have h1 : e ≤ Int.log 2 x := by
    have := (Int.zpow_le_iff_le_log (b := 2) (by norm_num) hpos (x := e)).mp (by exact_mod_cast hlo)
    exact this
  have h2 : Int.log 2 x < e + 1 := by
    have := (Int.lt_zpow_iff_log_lt (b := 2) (by norm_num) hpos (x := e + 1)).mp
      (by exact_mod_cast hhi)
    exact this
  omega

theorem roundFloat_eval (p : Nat) (emin : Int) (x : ℚ) (e n : Int) (hlo : (2 : ℚ) ^ e ≤ |x|)
    (hhi : |x| < (2 : ℚ) ^ (e + 1)) (hmin : emin ≤ e)
    (hnear : |x / 2 ^ (e - (p - 1)) - n| < 1 / 2) :
    roundFloat p emin x = n * 2 ^ (e - (p - 1)) := by
  have hx : x ≠ 0 := by
    intro h
    rw [h, abs_zero] at hlo
    exact absurd hlo (not_le.mpr (zpow_pos (by norm_num) e))
  unfold roundFloat
  rw [if_neg hx]
  simp only [log_two_eq |x| e hlo hhi, max_eq_left hmin]
  rw [roundHalfEven_of_near _ n hnear]

theorem binary32_zero : binary32 0 = 0 := by
  simp [binary32, roundFloat]

theorem binary32_one : binary32 1 = 1 := by
  have h := roundFloat_eval 24 (-126) 1 0 8388608 (by norm_num) (by norm_num) (by norm_num)
    (by norm_num)
  rw [binary32, h]
  norm_num

theorem binary32_255 : binary32 255 = 255 := by
  have h := roundFloat_eval 24 (-126) 255 7 16711680 (by norm_num) (by norm_num) (by norm_num)
    (by norm_num)
  rw [binary32, h]
  norm_num

theorem binary32_quarter : binary32 (1 / 4) = 1 / 4 := by
  have h := roundFloat_eval 24 (-126) (1 / 4) (-2) 8388608 (by norm_num [abs_of_pos])
    (by norm_num [abs_of_pos]) (by norm_num) (by norm_num [abs_of_pos])
  rw [binary32, h]
  norm_num

theorem binary32_quarter_next : binary32 (1 / 4 + 1 / 2 ^ 25) = 1 / 4 + 1 / 2 ^ 25 := by
  have h := roundFloat_eval 24 (-126) (1 / 4 + 1 / 2 ^ 25) (-2) 8388609
    (by norm_num [abs_of_pos]) (by norm_num [abs_of_pos]) (by norm_num)
    (by norm_num [abs_of_pos])
  rw [binary32, h]
  norm_num

theorem binary32_eighth : binary32 (1 / 4 / 2) = 1 / 8 := by
  have h := roundFloat_eval 24 (-126) (1 / 4 / 2) (-3) 8388608 (by norm_num [abs_of_pos])
    (by norm_num [abs_of_pos]) (by norm_num) (by norm_num [abs_of_pos])
  rw [binary32, h]
  norm_num

theorem binary32_eighth_next :
    binary32 ((1 / 4 + 1 / 2 ^ 25) / 2) = 1 / 8 + 1 / 2 ^ 26 := by
  have h := roundFloat_eval 24 (-126) ((1 / 4 + 1 / 2 ^ 25) / 2) (-3) 8388609
    (by norm_num [abs_of_pos]) (by norm_num [abs_of_pos]) (by norm_num)
    (by norm_num [abs_of_pos])
  rw [binary32, h]
  norm_num

theorem binary32_seven_eighths : binary32 (1 - 1 / 8) = 7 / 8 := by
  have h := roundFloat_eval 24 (-126) (1 - 1 / 8) (-1) 14680064 (by norm_num [abs_of_pos])
    (by norm_num [abs_of_pos]) (by norm_num) (by norm_num [abs_of_pos])
  rw [binary32, h]
  norm_num

theorem binary32_seven_eighths_below : binary32 (1 - (1 / 8 + 1 / 2 ^ 26)) = 7 / 8 := by
  have h := roundFloat_eval 24 (-126) (1 - (1 / 8 + 1 / 2 ^ 26)) (-1) 14680064
    (by norm_num [abs_of_pos]) (by norm_num [abs_of_pos]) (by norm_num)
    (by norm_num [abs_of_pos])
  rw [binary32, h]
  norm_num

theorem binary32_alpha_value : binary32 (7 / 8 * 255) = 1785 / 8 := by
  have h := roundFloat_eval 24 (-126) (7 / 8 * 255) 7 14622720 (by norm_num [abs_of_pos])
    (by norm_num [abs_of_pos]) (by norm_num) (by norm_num [abs_of_pos])
  rw [binary32, h]
  norm_num

theorem damageAlpha_float_quarter : Sfx.damageAlpha_float (1 / 4) = 1785 / 8 := by
  rw [Sfx.damageAlpha_float, binary32_eighth, binary32_seven_eighths, binary32_alpha_value]

theorem damageAlpha_float_quarter_next :
    Sfx.damageAlpha_float (1 / 4 + 1 / 2 ^ 25) = 1785 / 8 := by
  rw [Sfx.damageAlpha_float, binary32_eighth_next, binary32_seven_eighths_below,
    binary32_alpha_value]

theorem damageAlpha_float_zero : Sfx.damageAlpha_float 0 = 255 := by
  have h1 : (0 : ℚ) / 2 = 0 := by norm_num
  have h2 : (1 : ℚ) - 0 = 1 := by norm_num
  have h3 : (1 : ℚ) * 255 = 255 := by norm_num
  rw [Sfx.damageAlpha_float, h1, binary32_zero, h2, binary32_one, h3, binary32_255]

theorem damageAlpha_float_two : Sfx.damageAlpha_float 2 = 0 := by
  have h1 : (2 : ℚ) / 2 = 1 := by norm_num
  have h2 : (1 : ℚ) - 1 = 0 := by norm_num
  have h3 : (0 : ℚ) * 255 = 0 := by norm_num
  rw [Sfx.damageAlpha_float, h1, binary32_one, h2, binary32_zero, h3, binary32_zero]

/-- C14 (as stated, refuted): 1/4 and the next value of type `float` above it,
1/4 + 2^-25, are two ages below 2.0 for which the source, computing
`(1.0f-(m_age/2.0f))*255` in binary32, gives the same alpha 223.125; so the alpha
is not strictly decreasing in the age, and at the second age it is not
`255 * (1 - age / 2.0)`. -/
theorem C14_counterexample_equal_alpha :
    binary32 (1 / 4) = 1 / 4 ∧
    binary32 (1 / 4 + 1 / 2 ^ 25) = 1 / 4 + 1 / 2 ^ 25 ∧
    (1 / 4 : ℚ) < 1 / 4 + 1 / 2 ^ 25 ∧ (1 / 4 + 1 / 2 ^ 25 : ℚ) < 2 ∧
    Sfx.damageAlpha_float (1 / 4) = 1785 / 8 ∧
    Sfx.damageAlpha_float (1 / 4 + 1 / 2 ^ 25) = 1785 / 8 ∧
    ¬ (Sfx.damageAlpha_float (1 / 4 + 1 / 2 ^ 25) < Sfx.damageAlpha_float (1 / 4)) ∧
    Sfx.damageAlpha_float (1 / 4 + 1 / 2 ^ 25) ≠ 255 * (1 - (1 / 4 + 1 / 2 ^ 25) / 2) := by
  refine ⟨binary32_quarter, binary32_quarter_next, by norm_num, by norm_num,
    damageAlpha_float_quarter, damageAlpha_float_quarter_next, ?_, ?_⟩
  · rw [damageAlpha_float_quarter, damageAlpha_float_quarter_next]
    norm_num
  · rw [damageAlpha_float_quarter_next]
    norm_num

/-- C14 (amended): for a Damage effect `Render` sets the colour of the sprite to
yellow (255, 255, 0) with the alpha `(1 - age / 2.0) * 255` and draws one point
sprite of size 20 with it. In exact arithmetic that alpha is
`255 * (1 - age / 2.0)`: 255 at age 0, 0 at age 2.0, and strictly decreasing in
the age. In the binary32 arithmetic of the source it is 255 at age 0 and 0 at
age 2.0. -/
theorem C14_damage_recipe (s : Sfx) (env : RenderEnv) (ft : matrix4x4d)
    (h : s.m_type = TYPE_DAMAGE) :
    (s.Render env ft).2.damageParticle = ⟨255, 255, 0, 255 * (1 - s.m_age / 2.0)⟩ ∧
    (∃ (m : DrawTransform) (p : vector3d), (s.Render env ft).2.calls =
      env.calls ++ [RenderCall.SetTransform m,
        RenderCall.DrawPointSprites 1 p BlendState.additiveAlphaState
          ⟨255, 255, 0, 255 * (1 - s.m_age / 2.0)⟩ 20]) ∧
    damageAlpha s env ft = 255 * (1 - s.m_age / 2.0) ∧
    (s.m_age = 0 → damageAlpha s env ft = 255) ∧
    (s.m_age = 2.0 → damageAlpha s env ft = 0) ∧
    (∀ (s' : Sfx) (env' : RenderEnv) (ft' : matrix4x4d), s'.m_type = TYPE_DAMAGE →
      s.m_age < s'.m_age → damageAlpha s' env' ft' < damageAlpha s env ft) ∧
    Sfx.damageAlpha_float 0 = 255 ∧ Sfx.damageAlpha_float 2 = 0 := by
  have hcol : (s.Render env ft).2.damageParticle = ⟨255, 255, 0, 255 * (1 - s.m_age / 2.0)⟩ := by
    rw [(Render_damage s env ft h).1]
    norm_num [mul_comm]
  have halpha : ∀ (u : Sfx) (e : RenderEnv) (g : matrix4x4d), u.m_type = TYPE_DAMAGE →
      damageAlpha u e g = 255 * (1 - u.m_age / 2.0) := by
    intro u e g hu
    rw [damageAlpha, (Render_damage u e g hu).1]
    norm_num [mul_comm]
  refine ⟨hcol, ⟨DrawTransform.Translation (ft s.m_pos), ft s.m_pos, ?_⟩, halpha s env ft h,
    ?_, ?_, ?_, damageAlpha_float_zero, damageAlpha_float_two⟩
  · rw [(Render_damage s env ft h).2]
    norm_num [mul_comm]
  · intro h0
    rw [halpha s env ft h, h0]
    norm_num
  · intro h2
    rw [halpha s env ft h, h2]
    norm_num
  · intro s' env' ft' hs' hlt
    rw [halpha s env ft h, halpha s' env' ft' hs']
    linarith

/-- C14 witness: a Damage effect of age 1 is drawn with alpha 255 / 2. -/
theorem C14_witness_half_life :
    (damageAged 1).m_type = TYPE_DAMAGE ∧
    damageAlpha (damageAged 1) blankEnv (fun p => p) = 255 * (1 - (damageAged 1).m_age / 2.0) :=
  ⟨rfl, (C14_damage_recipe (damageAged 1) blankEnv (fun p => p) rfl).2.2.1⟩
